import Mathlib

/-!
Verification of the mockylla / pyscylladb_mock in-memory CQL engine.

The embedding mirrors the Python source at the level of the statement
handlers: statement parsing is kept out of scope (handlers receive the
already parsed arguments, exactly the values the regex layer hands to
them in the source), while every data transformation performed by the
handlers is translated line by line.

Python dictionaries are modelled as association lists with unique keys
kept in insertion order; `dict.get` with its `None` default is modelled
by a total lookup returning `Val.null` for a missing key.  Exceptions
raised by a handler (InvalidRequest, TypeError) are modelled by an
`Option` result, `none` standing for the raised exception.

Wall-clock time is threaded explicitly: handlers receive the current
time in seconds (`now`) and the effective write timestamp, where the
Python source calls `time.time()` and a current-time derived
microsecond value.
-/

set_option autoImplicit false

namespace Mockylla

/-- Scalar values.  `null` doubles as the Python `None`; `fdiv` models
the exact value of a Python float division of an integer sum by a count
(produced only by `AVG`). -/
inductive Prim where
  | null : Prim
  | int (n : Int) : Prim
  | text (s : String) : Prim
  | vbool (b : Bool) : Prim
  | fdiv (num : Int) (den : Nat) : Prim
  deriving DecidableEq, Repr

/-- Values stored in rows and appearing in conditions.  `vlist` is a
collection of scalars (the right hand side of an `IN` condition, which
the condition parser only ever fills with cast scalar literals);
`metaV` is the hidden write-metadata object the engine stores under the
reserved `__meta` dictionary key, carrying the write timestamp
(microseconds) and the optional expiry instant (seconds). -/
inductive Val where
  | prim (p : Prim) : Val
  | vlist (vs : List Prim) : Val
  | metaV (writeTime : Int) (expiresAt : Option Int) : Val
  deriving DecidableEq, Repr

/-- Shorthand for the Python `None` value. -/
def Val.null : Val := Val.prim Prim.null

/-- Shorthand for an integer value. -/
def Val.int (n : Int) : Val := Val.prim (Prim.int n)

/-- Shorthand for a text value. -/
def Val.text (s : String) : Val := Val.prim (Prim.text s)

/-- Shorthand for a boolean value. -/
def Val.vbool (b : Bool) : Val := Val.prim (Prim.vbool b)

/-- A row is a Python dict: an association list with pairwise distinct
keys, in insertion order. -/
abbrev Row := List (String × Val)

/-- Python `row.get(k, d)`: value of the first entry with key `k`, or
the default. -/
def dictGetD (r : Row) (k : String) (d : Val) : Val :=
  match r.find? (fun p => p.1 == k) with
  | some p => p.2
  | none => d

/-- Python `row.get(k)` (default `None`). -/
def dictGet (r : Row) (k : String) : Val :=
  dictGetD r k Val.null

/-- Python `row[k] = v`: replace the value in place if the key exists,
otherwise append the new entry. -/
def dictSet (r : Row) (k : String) (v : Val) : Row :=
  if r.any (fun p => p.1 == k) then
    r.map (fun p => if p.1 == k then (k, v) else p)
  else
    r ++ [(k, v)]

/-- Python `row.update(kvs)`: apply `dictSet` for each pair in order. -/
def dictUpdate (r : Row) (kvs : List (String × Val)) : Row :=
  kvs.foldl (fun acc p => dictSet acc p.1 p.2) r

/-- Does the value hold the hidden write metadata object? -/
def isMetaVal : Val → Bool
  | Val.metaV _ _ => true
  | _ => false

/-- Modelled from the spec: `row_write_timestamp` from the missing
`mockylla/parser/utils.py`.  Reads the write timestamp (microsecond
integer) from the hidden `__meta` entry of a row; a row that carries no
metadata is treated as written at timestamp 0. -/
def row_write_timestamp (r : Row) : Int :=
  match dictGet r "__meta" with
  | Val.metaV ts _ => ts
  | _ => 0

/-- Modelled from the spec: `apply_write_metadata` from the missing
`mockylla/parser/utils.py`.  Stores the write timestamp under the
hidden `__meta` key; when a TTL is provided with a positive value the
expiry instant is the current time in seconds plus the TTL, a provided
TTL of zero clears the expiry, and when no TTL is provided any expiry
already present on the row is preserved. -/
def apply_write_metadata (r : Row) (timestamp : Int) (ttlValue : Option Int)
    (ttlProvided : Bool) (now : Option Int) : Row :=
  let expiry : Option Int :=
    if ttlProvided then
      match ttlValue, now with
      | some ttl, some n => if ttl > 0 then some (n + ttl) else none
      | _, _ => none
    else
      match dictGet r "__meta" with
      | Val.metaV _ e => e
      | _ => none
  dictSet r "__meta" (Val.metaV timestamp expiry)

/-- Modelled from the spec: a row is expired once its TTL-derived expiry
instant has passed (strictly before the current time in seconds). -/
def isExpired (now : Int) (r : Row) : Bool :=
  match dictGet r "__meta" with
  | Val.metaV _ (some e) => e < now
  | _ => false

/-- A table as stored in the keyspace mapping: the ordered
column-to-declared-type schema, the primary key columns (partition plus
clustering, the `all` entry of the primary-key descriptor), and the
ordered row list. -/
structure Table where
  schema : List (String × String)
  primaryKey : List String
  data : List Row
  deriving DecidableEq, Repr

/-- The keys of the schema in declared order. -/
def schemaKeys (schema : List (String × String)) : List String :=
  schema.map (fun p => p.1)

/-- Modelled from the spec: `purge_expired_rows` from the missing
`mockylla/parser/utils.py`.  Removes every expired row from the table. -/
def purge_expired_rows (now : Int) (t : Table) : Table :=
  { t with data := t.data.filter (fun r => !isExpired now r) }

/-- A parsed condition triple `(column, operator, value)` exactly as the
condition parser produces it: the operator is kept as its source string
(for example `"="`, `">="`, `"IN"`). -/
structure Cond where
  col : String
  op : String
  rhs : Val
  deriving DecidableEq, Repr

/-- The parsed LWT clause of a statement: no clause, `IF NOT EXISTS`,
`IF EXISTS`, or an `IF <conditions>` list. -/
inductive LwtClause where
  | noClause : LwtClause
  | ifNotExists : LwtClause
  | ifExists : LwtClause
  | conds (cs : List Cond) : LwtClause
  deriving DecidableEq, Repr

/-- Modelled from the spec: the result row of a conditional write,
carrying the `[applied]` flag and, for a not-applied outcome, the
conflicting row. -/
structure LwtResult where
  applied : Bool
  row : Option Row
  deriving DecidableEq, Repr

/-- Modelled from the spec: `build_lwt_result` from the missing
`mockylla/parser/utils.py`. -/
def build_lwt_result (applied : Bool) (row : Option Row := none) : LwtResult :=
  { applied := applied, row := row }

/-- Python `<` on two scalar values: defined for two ints, two strings
and two booleans; every other combination raises `TypeError`, modelled
as `none`.  (Claims only ever compare like scalar types.) -/
def primLt : Prim → Prim → Option Bool
  | Prim.int a, Prim.int b => some (decide (a < b))
  | Prim.text a, Prim.text b => some (decide (a < b))
  | Prim.vbool a, Prim.vbool b => some (!a && b)
  | _, _ => none

/-- Python `<=` on two scalar values, same domain as `primLt`. -/
def primLe : Prim → Prim → Option Bool
  | Prim.int a, Prim.int b => some (decide (a ≤ b))
  | Prim.text a, Prim.text b => some (decide (a ≤ b))
  | Prim.vbool a, Prim.vbool b => some (!a || b)
  | _, _ => none

/-- Python `<` lifted to values: list and metadata comparisons are out
of the scalar domain and modelled as `TypeError`. -/
def pyLt : Val → Val → Option Bool
  | Val.prim a, Val.prim b => primLt a b
  | _, _ => none

/-- Python `<=` lifted to values. -/
def pyLe : Val → Val → Option Bool
  | Val.prim a, Val.prim b => primLe a b
  | _, _ => none

/-- Modelled from the spec: single condition evaluation by the condition
evaluator of the missing `mockylla/parser/utils.py`, supporting the
operators `=, !=, <, <=, >, >=, IN` with their standard comparison and
membership meaning. -/
def checkConditionM (rowVal : Val) (op : String) (val : Val) : Option Bool :=
  if op = "=" then some (rowVal == val)
  else if op = "!=" then some (rowVal != val)
  else if op = "<" then pyLt rowVal val
  else if op = "<=" then pyLe rowVal val
  else if op = ">" then pyLt val rowVal
  else if op = ">=" then pyLe val rowVal
  else if op = "IN" then
    match rowVal, val with
    | Val.prim p, Val.vlist vs => some (vs.contains p)
    | _, _ => some false
  else some false

/-- Modelled from the spec: `check_row_conditions` from the missing
`mockylla/parser/utils.py`.  A row matches iff every condition holds;
a missing (or null) column value never matches. -/
def check_row_conditions (row : Row) (conds : List Cond) : Option Bool :=
  match conds with
  | [] => some true
  | c :: rest =>
    let rv := dictGet row c.col
    if rv == Val.null then some false
    else
      match checkConditionM rv c.op c.rhs with
      | none => none
      | some false => some false
      | some true => check_row_conditions row rest

/-! ## INSERT (`src/mockylla/parser/insert.py`, `handle_insert_into`)

The handler is embedded from the point where the statement has been
parsed and the target table resolved: `rowData` is the `row_data`
dictionary (column values already cast), `clause` the parsed LWT
clause, and the `USING` options arrive as `ttlValue` / `ttlProvided` /
`writeTimestamp` exactly as `parse_using_options` returns them (with
the current-time default already applied to the timestamp).  `now` is
the wall clock in seconds. -/

/-- Replace the row list of a table. -/
def setData (t : Table) (d : List Row) : Table :=
  { t with data := d }

/-- The `now_seconds` computation shared by the INSERT and UPDATE
handlers: the wall clock in seconds is captured only when a positive
TTL was provided. -/
def nowSecondsFor (ttlValue : Option Int) (ttlProvided : Bool) (now : Int) : Option Int :=
  match ttlValue with
  | some ttl => if ttlProvided && ttl > 0 then some now else none
  | none => none

/-- Arguments of one INSERT execution against a resolved table. -/
structure InsertArgs where
  rowData : Row
  clause : LwtClause
  ttlValue : Option Int
  ttlProvided : Bool
  writeTimestamp : Int
  now : Int
  deriving Repr

/-- Does a candidate row carry the same primary-key tuple as the
inserted row?  This is the `all(candidate.get(k) == pk_values.get(k))`
check of the source (both sides read through `dict.get`). -/
def pkMatches (pkCols : List String) (rowData candidate : Row) : Bool :=
  pkCols.all (fun k => dictGet candidate k == dictGet rowData k)

/-- Replace the first row satisfying `p` with `newRow`, keeping its
position; the source mutates the found dictionary in place. -/
def replaceFirst (p : Row → Bool) (newRow : Row) : List Row → List Row
  | [] => []
  | r :: rs => if p r then newRow :: rs else r :: replaceFirst p newRow rs

/-- The row that overwrites an existing row: the source clears the
existing dictionary, copies `new_row` into it, restores the previous
`__meta` entry when no TTL was provided, and then applies the new write
metadata. -/
def overwriteRow (existing : Row) (a : InsertArgs) (nowSeconds : Option Int) : Row :=
  let previousMeta : Option Val :=
    if a.ttlProvided then none
    else
      match dictGet existing "__meta" with
      | Val.metaV ts e => some (Val.metaV ts e)
      | _ => none
  let base :=
    match previousMeta with
    | some m => dictSet a.rowData "__meta" m
    | none => a.rowData
  apply_write_metadata base a.writeTimestamp a.ttlValue a.ttlProvided nowSeconds

/-- The freshly stored row of an insert that found no existing row. -/
def freshRow (a : InsertArgs) (nowSeconds : Option Int) : Row :=
  apply_write_metadata a.rowData a.writeTimestamp a.ttlValue a.ttlProvided nowSeconds

/-- The body of the INSERT handler, from the purge of expired rows
onwards. -/
def handleInsertBody (t : Table) (a : InsertArgs) : Option (Table × List LwtResult) :=
  let t := purge_expired_rows a.now t
  let nowSeconds := nowSecondsFor a.ttlValue a.ttlProvided a.now
  let pkCols := t.primaryKey
  let existing : Option Row :=
    if pkCols.isEmpty then none
    else t.data.find? (pkMatches pkCols a.rowData)
  match a.clause with
  | LwtClause.ifNotExists =>
    match existing with
    | some ex => some (t, [build_lwt_result false (some ex)])
    | none =>
      some (setData t (t.data ++ [freshRow a nowSeconds]),
            [build_lwt_result true])
  | LwtClause.ifExists =>
    match existing with
    | none => some (t, [build_lwt_result false])
    | some ex =>
      if a.writeTimestamp < row_write_timestamp ex then
        some (t, [build_lwt_result true])
      else
        some (setData t (replaceFirst (pkMatches pkCols a.rowData)
                (overwriteRow ex a nowSeconds) t.data),
              [build_lwt_result true])
  | LwtClause.conds cs =>
    match existing with
    | none => some (t, [build_lwt_result false])
    | some ex =>
      match check_row_conditions ex cs with
      | none => none
      | some false => some (t, [build_lwt_result false (some ex)])
      | some true =>
        if a.writeTimestamp < row_write_timestamp ex then
          some (t, [build_lwt_result true])
        else
          some (setData t (replaceFirst (pkMatches pkCols a.rowData)
                  (overwriteRow ex a nowSeconds) t.data),
                [build_lwt_result true])
  | LwtClause.noClause =>
    match existing with
    | some ex =>
      if a.writeTimestamp < row_write_timestamp ex then
        some (t, [])
      else
        some (setData t (replaceFirst (pkMatches pkCols a.rowData)
                (overwriteRow ex a nowSeconds) t.data),
              [])
    | none =>
      some (setData t (t.data ++ [freshRow a nowSeconds]), [])

/-- The INSERT handler (`handle_insert_into`), embedded from the purge
call onwards; `none` models a raised `InvalidRequest` (negative TTL) or
a failed condition evaluation. -/
def handle_insert_into (t : Table) (a : InsertArgs) : Option (Table × List LwtResult) :=
  match a.ttlValue with
  | some ttl => if ttl < 0 then none else handleInsertBody t a
  | none => handleInsertBody t a

/-! ## UPDATE (`src/mockylla/parser/update.py`, `handle_update`)

Embedded from the point where the SET clause has been parsed into
`set_operations` / `counter_operations`, the WHERE clause into
`parsed_conditions` and the LWT clause classified. -/

/-- Arguments of one UPDATE execution against a resolved table. -/
structure UpdateArgs where
  setOps : List (String × Val)
  counterOps : List (String × Int)
  conds : List Cond
  clause : LwtClause
  ttlValue : Option Int
  ttlProvided : Bool
  writeTimestamp : Int
  now : Int
  deriving Repr

/-- The private row predicate of the update handler
(`__handle_update_check_row`): only the equality conditions of the
WHERE clause are consulted, every other operator is ignored. -/
def updateCheckRow (row : Row) (conds : List Cond) : Bool :=
  conds.all (fun c => if c.op = "=" then dictGet row c.col == c.rhs else true)

/-- Apply the counter operations: `row[col] = row.get(col, 0) + val`;
adding to a non-integer stored value raises `TypeError` (`none`). -/
def applyCounterOps (row : Row) : List (String × Int) → Option Row
  | [] => some row
  | (c, v) :: rest =>
    match dictGetD row c (Val.int 0) with
    | Val.prim (Prim.int n) => applyCounterOps (dictSet row c (Val.int (n + v))) rest
    | _ => none

/-- The in-place mutation of one matched row inside
`__update_existing_rows`: SET assignments, counter increments, then the
new write metadata. -/
def updatedRow (a : UpdateArgs) (nowSeconds : Option Int) (row : Row) : Option Row :=
  match applyCounterOps (dictUpdate row a.setOps) a.counterOps with
  | none => none
  | some row =>
    some (apply_write_metadata row a.writeTimestamp a.ttlValue a.ttlProvided nowSeconds)

/-- The private `__update_existing_rows` loop: every row matching the
equality predicate whose stored write timestamp does not exceed the new
one is mutated; the second component counts the mutated rows. -/
def update_existing_rows (a : UpdateArgs) (nowSeconds : Option Int) :
    List Row → Option (List Row × Nat)
  | [] => some ([], 0)
  | r :: rs =>
    if updateCheckRow r a.conds then
      if a.writeTimestamp < row_write_timestamp r then
        match update_existing_rows a nowSeconds rs with
        | some (rs', n) => some (r :: rs', n)
        | none => none
      else
        match updatedRow a nowSeconds r with
        | none => none
        | some r' =>
          match update_existing_rows a nowSeconds rs with
          | some (rs', n) => some (r' :: rs', n + 1)
          | none => none
    else
      match update_existing_rows a nowSeconds rs with
      | some (rs', n) => some (r :: rs', n)
      | none => none

/-- The new-row skeleton of the private `__handle_upsert`: the values of
the equality conditions, in order, with the flag recording whether any
equality condition was seen at all. -/
def upsertRowBase (conds : List Cond) : Row × Bool :=
  conds.foldl
    (fun (acc : Row × Bool) c =>
      if c.op = "=" then (dictSet acc.1 c.col c.rhs, true) else acc)
    ([], false)

/-- The private `__handle_upsert`: when at least one equality condition
exists, synthesize a new row from the equality values, the SET
assignments and the counter values, stamp it and append it; otherwise
leave the data untouched. -/
def handle_upsert (a : UpdateArgs) (nowSeconds : Option Int) (data : List Row) : List Row :=
  let base := upsertRowBase a.conds
  if !base.2 then data
  else
    let newRow := dictUpdate base.1 a.setOps
    let newRow := a.counterOps.foldl
      (fun r (p : String × Int) => dictSet r p.1 (Val.int p.2)) newRow
    data ++ [apply_write_metadata newRow a.writeTimestamp a.ttlValue a.ttlProvided nowSeconds]

/-- Scan of the matched rows for the `IF <conditions>` branch: the first
row failing the LWT conditions, `some none` when all pass, `none` when
the evaluation itself raises. -/
def firstFailingRow (cs : List Cond) : List Row → Option (Option Row)
  | [] => some none
  | r :: rs =>
    match check_row_conditions r cs with
    | none => none
    | some true => firstFailingRow cs rs
    | some false => some (some r)

/-- The body of the UPDATE handler, from the purge of expired rows
onwards. -/
def handleUpdateBody (t : Table) (a : UpdateArgs) : Option (Table × List LwtResult) :=
  let t := purge_expired_rows a.now t
  let matching := t.data.filter (fun r => updateCheckRow r a.conds)
  let nowSeconds := nowSecondsFor a.ttlValue a.ttlProvided a.now
  match a.clause with
  | LwtClause.ifNotExists =>
    match matching with
    | m :: _ => some (t, [build_lwt_result false (some m)])
    | [] =>
      some (setData t (handle_upsert a nowSeconds t.data), [build_lwt_result true])
  | LwtClause.ifExists =>
    match matching with
    | [] => some (t, [build_lwt_result false])
    | _ :: _ =>
      match update_existing_rows a nowSeconds t.data with
      | none => none
      | some (rows, _) => some (setData t rows, [build_lwt_result true])
  | LwtClause.conds cs =>
    match matching with
    | [] => some (t, [build_lwt_result false])
    | _ :: _ =>
      match firstFailingRow cs matching with
      | none => none
      | some (some r) => some (t, [build_lwt_result false (some r)])
      | some none =>
        match update_existing_rows a nowSeconds t.data with
        | none => none
        | some (rows, _) => some (setData t rows, [build_lwt_result true])
  | LwtClause.noClause =>
    match update_existing_rows a nowSeconds t.data with
    | none => none
    | some (rows, updated) =>
      if updated > 0 then some (setData t rows, [])
      else if matching.isEmpty then
        some (setData t (handle_upsert a nowSeconds rows), [])
      else
        some (setData t rows, [])

/-- The UPDATE handler (`handle_update`), embedded from the purge call
onwards; `none` models a raised exception (negative TTL, counter type
error, failed condition evaluation). -/
def handle_update (t : Table) (a : UpdateArgs) : Option (Table × List LwtResult) :=
  match a.ttlValue with
  | some ttl => if ttl < 0 then none else handleUpdateBody t a
  | none => handleUpdateBody t a

/-! ## DELETE (`src/mockylla/parser/delete.py`, `handle_delete_from`)

Embedded from the purge call onwards.  The WHERE clause arrives as
`none` when the statement carried no (or an empty) WHERE string, and as
`some conds` with the parse result of a non-empty WHERE string. -/

/-- Partition of the table data into the rows matching the WHERE
conditions and the rows to keep; `none` when evaluation raises. -/
def partitionByConds (cs : List Cond) : List Row → Option (List Row × List Row)
  | [] => some ([], [])
  | r :: rs =>
    match check_row_conditions r cs with
    | none => none
    | some true =>
      match partitionByConds cs rs with
      | some (del, keep) => some (r :: del, keep)
      | none => none
    | some false =>
      match partitionByConds cs rs with
      | some (del, keep) => some (del, r :: keep)
      | none => none

/-- The DELETE handler (`handle_delete_from`). -/
def handle_delete_from (t : Table) (whereConds : Option (List Cond))
    (clause : LwtClause) (now : Int) : Option (Table × List LwtResult) :=
  let t := purge_expired_rows now t
  match whereConds with
  | none => some (t, [])
  | some [] => some (t, [])
  | some cs =>
    match partitionByConds cs t.data with
    | none => none
    | some (toDelete, toKeep) =>
      match clause with
      | LwtClause.ifNotExists =>
        match toDelete with
        | d :: _ => some (t, [build_lwt_result false (some d)])
        | [] => some (t, [build_lwt_result true])
      | LwtClause.ifExists =>
        match toDelete with
        | [] => some (t, [build_lwt_result false])
        | _ :: _ => some (setData t toKeep, [build_lwt_result true])
      | LwtClause.conds lwtCs =>
        match toDelete with
        | [] => some (t, [build_lwt_result false])
        | _ :: _ =>
          match firstFailingRow lwtCs toDelete with
          | none => none
          | some (some r) => some (t, [build_lwt_result false (some r)])
          | some none => some (setData t toKeep, [build_lwt_result true])
      | LwtClause.noClause =>
        if toDelete.length > 0 then some (setData t toKeep, [])
        else some (t, [])

/-! ## SELECT (`src/mockylla/parser/select.py`, `handle_select_from`)

Embedded from the point where the SELECT clause has been parsed into
structured items (`__parse_select_items`) and the WHERE clause, when
present, into conditions.  The result container (`mockylla/row.py`,
missing from the sources) is modelled from the spec as an ordered
named-column row whose iteration yields its values. -/

/-- A parsed select item (`__parse_select_items`). -/
inductive SelectItem where
  | wildcard : SelectItem
  | column (name al : String) : SelectItem
  | aggregate (func arg al : String) (distinct : Bool) : SelectItem
  | rowFunc (func arg al : String) : SelectItem
  deriving DecidableEq, Repr

/-- Modelled from the spec: the Result Model row, an ordered sequence of
named output columns. -/
structure ResultRow where
  names : List String
  values : List Val
  deriving DecidableEq, Repr

/-- The private `__apply_where_filters` over an already parsed WHERE
clause: with no WHERE clause every row is passed through. -/
def filterByConds (cs : List Cond) : List Row → Option (List Row)
  | [] => some []
  | r :: rs =>
    match check_row_conditions r cs with
    | none => none
    | some true =>
      match filterByConds cs rs with
      | some rs' => some (r :: rs')
      | none => none
    | some false => filterByConds cs rs

/-- Apply the optional WHERE clause to the table data
(`__apply_where_filters`). -/
def applyWhereFilters (data : List Row) (whereConds : Option (List Cond)) :
    Option (List Row) :=
  match whereConds with
  | none => some data
  | some cs => filterByConds cs data

/-- The private `__compute_row_function`: the WRITETIME and TTL probes
always report `None`; any other function name raises. -/
def computeRowFunction (func : String) : Option Val :=
  if func = "writetime" then some Val.null
  else if func = "ttl" then some Val.null
  else none

/-- Compile the non-aggregate select items into the projection plan and
the output column names (`__select_columns`, else branch); an item that
is neither a plain column nor a metadata function raises. -/
def compileItems : List SelectItem → Option (List (Sum String String) × List String)
  | [] => some ([], [])
  | SelectItem.column name al :: rest =>
    match compileItems rest with
    | some (cs, ns) => some (Sum.inl name :: cs, al :: ns)
    | none => none
  | SelectItem.rowFunc func _ al :: rest =>
    match compileItems rest with
    | some (cs, ns) => some (Sum.inr func :: cs, al :: ns)
    | none => none
  | _ => none

/-- Evaluate one compiled projection entry against a row. -/
def projectEntry (row : Row) : Sum String String → Option Val
  | Sum.inl col => some (dictGet row col)
  | Sum.inr func => computeRowFunction func

/-- Evaluate the whole projection plan against a row. -/
def projectRow (row : Row) : List (Sum String String) → Option (List Val)
  | [] => some []
  | e :: es =>
    match projectEntry row e, projectRow row es with
    | some v, some vs => some (v :: vs)
    | _, _ => none

/-- The projection loop of `__select_columns` over the filtered rows. -/
def buildResultRows (compiled : List (Sum String String)) (names : List String) :
    List Row → Option (List ResultRow)
  | [] => some []
  | r :: rs =>
    match projectRow r compiled, buildResultRows compiled names rs with
    | some vs, some rest => some (⟨names, vs⟩ :: rest)
    | _, _ => none

/-- The private `__select_columns`: a lone wildcard projects the schema
columns in declared order, otherwise the compiled items are projected
in select-item order. -/
def selectColumns (filtered : List Row) (items : List SelectItem)
    (schema : List (String × String)) : Option (List ResultRow) :=
  match items with
  | [SelectItem.wildcard] =>
    let ordered := schemaKeys schema
    some (filtered.map (fun r => ⟨ordered, ordered.map (fun c => dictGet r c)⟩))
  | _ =>
    match compileItems items with
    | none => none
    | some (compiled, names) => buildResultRows compiled names filtered

/-- The private `__deduplicate_rows` loop, keyed on `tuple(row)`, the
value tuple of the result row. -/
def dedupSeen (seen : List (List Val)) : List ResultRow → List ResultRow
  | [] => []
  | r :: rs =>
    if seen.contains r.values then dedupSeen seen rs
    else r :: dedupSeen (r.values :: seen) rs

/-- The private `__deduplicate_rows`: drop every result row whose value
tuple was already seen, preserving order. -/
def deduplicateRows (rows : List ResultRow) : List ResultRow :=
  dedupSeen [] rows

/-- The non-aggregate, non-distinct, non-grouped SELECT pipeline of
`handle_select_from` for a statement without ORDER BY: filter, truncate
by the optional LIMIT, then project. -/
def handleSelectPlain (t : Table) (whereConds : Option (List Cond))
    (items : List SelectItem) (limit : Option Nat) : Option (List ResultRow) :=
  match applyWhereFilters t.data whereConds with
  | none => none
  | some filtered =>
    let filtered :=
      match limit with
      | some n => filtered.take n
      | none => filtered
    selectColumns filtered items t.schema

/-- The SELECT DISTINCT pipeline of `handle_select_from`: filter,
project, deduplicate, then truncate by the optional LIMIT. -/
def handleSelectDistinct (t : Table) (whereConds : Option (List Cond))
    (items : List SelectItem) (limit : Option Nat) : Option (List ResultRow) :=
  match applyWhereFilters t.data whereConds with
  | none => none
  | some filtered =>
    match selectColumns filtered items t.schema with
    | none => none
    | some rows =>
      let rows := deduplicateRows rows
      some (match limit with
            | some n => rows.take n
            | none => rows)

/-! ## Aggregates (`__compute_aggregate`) -/

/-- The non-null values of one column over the filtered rows: the list
comprehension `[row.get(argument) for row in filtered_data if
row.get(argument) is not None]`. -/
def aggValues (rows : List Row) (arg : String) : List Val :=
  (rows.map (fun r => dictGet r arg)).filter (fun v => v != Val.null)

/-- Python `+` for the values reachable through `sum` (integer
addition; anything else raises). -/
def pyAdd : Val → Val → Option Val
  | Val.prim (Prim.int a), Val.prim (Prim.int b) => some (Val.int (a + b))
  | _, _ => none

/-- Python `sum`, starting from the integer 0. -/
def pySumFrom (acc : Val) : List Val → Option Val
  | [] => some acc
  | v :: vs =>
    match pyAdd acc v with
    | some acc' => pySumFrom acc' vs
    | none => none

/-- Python `sum(values)`. -/
def pySum (values : List Val) : Option Val :=
  pySumFrom (Val.int 0) values

/-- Python `min` over a non-empty list: keep the current minimum,
replacing it only on a strictly smaller element. -/
def pyMinFold (cur : Val) : List Val → Option Val
  | [] => some cur
  | v :: vs =>
    match pyLt v cur with
    | none => none
    | some true => pyMinFold v vs
    | some false => pyMinFold cur vs

/-- Python `max` over a non-empty list. -/
def pyMaxFold (cur : Val) : List Val → Option Val
  | [] => some cur
  | v :: vs =>
    match pyLt cur v with
    | none => none
    | some true => pyMaxFold v vs
    | some false => pyMaxFold cur vs

/-- The private `__compute_aggregate` of the query engine: COUNT with
its `*` / `1` / DISTINCT variants, SUM, MIN, MAX, AVG; `none` models a
raised exception (unsupported function name or a type error inside the
Python builtin). -/
def computeAggregate (rows : List Row) (func arg : String) (distinct : Bool) :
    Option Val :=
  if func = "count" then
    if distinct then some (Val.int ((aggValues rows arg).dedup.length : Int))
    else if arg = "*" || arg = "1" then some (Val.int (rows.length : Int))
    else some (Val.int ((aggValues rows arg).length : Int))
  else
    let values := aggValues rows arg
    if func = "sum" then
      match values with
      | [] => some (Val.int 0)
      | _ => pySum values
    else if func = "min" then
      match values with
      | [] => some Val.null
      | v :: vs => pyMinFold v vs
    else if func = "max" then
      match values with
      | [] => some Val.null
      | v :: vs => pyMaxFold v vs
    else if func = "avg" then
      match values with
      | [] => some Val.null
      | _ =>
        match pySum values with
        | some (Val.prim (Prim.int s)) => some (Val.prim (Prim.fdiv s values.length))
        | _ => none
    else none

/-- The output column name of a select item (`item["alias"]`). -/
def itemAlias : SelectItem → Option String
  | SelectItem.column _ al => some al
  | SelectItem.aggregate _ _ al _ => some al
  | SelectItem.rowFunc _ _ al => some al
  | SelectItem.wildcard => none

/-- The ungrouped branch of the private `__select_with_aggregates`: one
result row holding each aggregate computed over the whole filtered
set. -/
def selectAggregatesUngrouped (filtered : List Row) (items : List SelectItem) :
    Option ResultRow :=
  let rec names : List SelectItem → Option (List String)
    | [] => some []
    | i :: is =>
      match itemAlias i, names is with
      | some n, some ns => some (n :: ns)
      | _, _ => none
  let rec values : List SelectItem → Option (List Val)
    | [] => some []
    | SelectItem.aggregate f a _ d :: is =>
      match computeAggregate filtered f a d, values is with
      | some v, some vs => some (v :: vs)
      | _, _ => none
    | _ => none
  match names items, values items with
  | some ns, some vs => some ⟨ns, vs⟩
  | _, _ => none

end Mockylla

namespace PyScylla

/-! ## Condition layer (`src/pyscylladb_mock/parser/utils.py`)

The private `__parse_conditions` applies, to each already split
condition string, first the membership regex
`(\w+)\s+IN\s+\((.*)\)` (case-insensitive, anchored at the start) and
then the comparison regex
`(\w+)\s*([<>=]+)\s*(?:'([^']*)'|\"([^\"]*)\"|([\w\.-]+))`;
a string matching neither is silently skipped.  Both regexes are
modelled character by character below. -/

open Mockylla

/-- The single-quote character. -/
def quoteChar : Char := Char.ofNat 39

/-- The double-quote character. -/
def dquoteChar : Char := Char.ofNat 34

/-- A regex word character (`\w`). -/
def isWordChar (c : Char) : Bool := c.isAlphanum || c == '_'

/-- A regex whitespace character (`\s`). -/
def isSpaceChar (c : Char) : Bool :=
  c == ' ' || c == '\t' || c == '\n' || c == '\r' || c == Char.ofNat 11 || c == Char.ofNat 12

/-- One of the characters of the `[<>=]` class. -/
def isOpChar (c : Char) : Bool := c == '<' || c == '>' || c == '='

/-- A character of the `[\w\.-]` literal class. -/
def isLiteralChar (c : Char) : Bool := isWordChar c || c == '.' || c == '-'

/-- Strip characters satisfying `p` from both ends (Python `str.strip`). -/
def stripChars (p : Char → Bool) (cs : List Char) : List Char :=
  ((cs.dropWhile p).reverse.dropWhile p).reverse

/-- Python `int()` applied to a string: optional surrounding whitespace,
an optional sign, then at least one decimal digit; anything else raises
`ValueError`. -/
def pyIntOfString (s : String) : Option Int :=
  let cs := stripChars isSpaceChar s.toList
  let digitsToNat (ds : List Char) : Option Nat :=
    if ds.isEmpty || !ds.all Char.isDigit then none
    else some (ds.foldl (fun acc c => acc * 10 + (c.toNat - 48)) 0)
  match cs with
  | '-' :: rest => (digitsToNat rest).map (fun n => -(n : Int))
  | '+' :: rest => (digitsToNat rest).map (fun n => (n : Int))
  | _ => (digitsToNat cs).map (fun n => (n : Int))

/-- Python `str.lower()` over the ASCII range, character by character. -/
def lowerString (s : String) : String :=
  (s.toList.map (fun c => if c.isUpper then Char.ofNat (c.toNat + 32) else c)).asString

/-- The value caster `cast_value`: `int`/`counter` run the Python `int`
constructor (which may raise), `text`/`varchar` keep the string, every
other declared type falls through with the raw token. -/
def cast_value (value : String) (cqlType : String) : Option Prim :=
  let ty := lowerString cqlType
  if ty = "int" || ty = "counter" then (pyIntOfString value).map Prim.int
  else if ty = "text" || ty = "varchar" then some (Prim.text value)
  else some (Prim.text value)

/-- Look up the declared type of a column; mirrors `schema.get(col)`
followed by the truthiness test `if cql_type:` (absent or empty means
no cast). -/
def schemaType (schema : List (String × String)) (col : String) : Option String :=
  match schema.find? (fun p => p.1 == col) with
  | some p => if p.2.isEmpty then none else some p.2
  | none => none

/-- Cast a token when the column has a declared type, otherwise keep the
raw token (the `if cql_type:` branch of both private parsers). -/
def castToken (schema : List (String × String)) (col : String) (token : String) :
    Option Prim :=
  match schemaType schema col with
  | some ty => cast_value token ty
  | none => some (Prim.text token)

/-- Match of the comparison regex against a stripped condition string:
captures the column, the maximal nonempty run of `[<>=]` characters,
and the literal token (quoted or bare).  A condition using `!=` has no
`[<>=]` character where the operator is expected and therefore does not
match. -/
def matchComparison (cs : List Char) : Option (String × String × String) :=
  let col := cs.takeWhile isWordChar
  if col.isEmpty then none
  else
    let rest := (cs.dropWhile isWordChar).dropWhile isSpaceChar
    let op := rest.takeWhile isOpChar
    if op.isEmpty then none
    else
      let rest := (rest.dropWhile isOpChar).dropWhile isSpaceChar
      match rest with
      | c :: rest2 =>
        if c == quoteChar then
          let content := rest2.takeWhile (fun d => d != quoteChar)
          match rest2.dropWhile (fun d => d != quoteChar) with
          | d :: _ =>
            if d == quoteChar then
              some (col.asString, op.asString, content.asString)
            else none
          | [] => none
        else if c == dquoteChar then
          let content := rest2.takeWhile (fun d => d != dquoteChar)
          match rest2.dropWhile (fun d => d != dquoteChar) with
          | d :: _ =>
            if d == dquoteChar then
              some (col.asString, op.asString, content.asString)
            else none
          | [] => none
        else
          let lit := (c :: rest2).takeWhile isLiteralChar
          if lit.isEmpty then none
          else some (col.asString, op.asString, lit.asString)
      | [] => none

/-- Match of the membership regex against a stripped condition string:
captures the column and the text between the opening parenthesis and
the last closing parenthesis (the greedy `(.*)\)`). -/
def matchMembership (cs : List Char) : Option (String × String) :=
  let col := cs.takeWhile isWordChar
  if col.isEmpty then none
  else
    let rest := cs.dropWhile isWordChar
    let sp1 := rest.takeWhile isSpaceChar
    if sp1.isEmpty then none
    else
      match rest.dropWhile isSpaceChar with
      | c1 :: c2 :: rest2 =>
        if (c1 == 'I' || c1 == 'i') && (c2 == 'N' || c2 == 'n') then
          let sp2 := rest2.takeWhile isSpaceChar
          if sp2.isEmpty then none
          else
            match rest2.dropWhile isSpaceChar with
            | '(' :: inner =>
              if inner.contains ')' then
                let content := ((inner.reverse.dropWhile (fun d => d != ')')).drop 1).reverse
                some (col.asString, content.asString)
              else none
            | _ => none
        else none
      | _ => none

/-- Python `values_str.split(",")`. -/
def splitOnComma (cs : List Char) : List (List Char) :=
  match cs with
  | [] => [[]]
  | c :: rest =>
    let tail := splitOnComma rest
    if c == ',' then [] :: tail
    else
      match tail with
      | t :: ts => (c :: t) :: ts
      | [] => [[c]]

/-- The quote characters stripped from IN list members
(`v.strip().strip("'\"")` strips whitespace, then quote characters). -/
def isQuoteChar (c : Char) : Bool := c == quoteChar || c == dquoteChar

/-- The private `__parse_in_condition`: split the captured list text on
commas, strip each token, cast per the declared column type. -/
def parseInCondition (schema : List (String × String)) (col : String)
    (content : String) : Option Cond :=
  let tokens := (splitOnComma content.toList).map
    (fun t => (stripChars isQuoteChar (stripChars isSpaceChar t)).asString)
  let rec castAll : List String → Option (List Prim)
    | [] => some []
    | tok :: rest =>
      match castToken schema col tok, castAll rest with
      | some p, some ps => some (p :: ps)
      | _, _ => none
  match castAll tokens with
  | some ps => some ⟨col, "IN", Val.vlist ps⟩
  | none => none

/-- The private `__parse_comparison_condition`: cast the captured
literal per the declared column type. -/
def parseComparisonCondition (schema : List (String × String)) (col op lit : String) :
    Option Cond :=
  match castToken schema col lit with
  | some p => some ⟨col, op, Val.prim p⟩
  | none => none

/-- The private `__parse_conditions` over the already split condition
strings: membership regex first, then the comparison regex, and a
string matching neither is skipped without error.  `none` models a
raised cast error. -/
def parseConditions (schema : List (String × String)) :
    List String → Option (List Cond)
  | [] => some []
  | cond :: rest =>
    let stripped := stripChars isSpaceChar cond.toList
    match matchMembership stripped with
    | some (col, content) =>
      match parseInCondition schema col content, parseConditions schema rest with
      | some c, some cs => some (c :: cs)
      | _, _ => none
    | none =>
      match matchComparison stripped with
      | some (col, op, lit) =>
        match parseComparisonCondition schema col op lit, parseConditions schema rest with
        | some c, some cs => some (c :: cs)
        | _, _ => none
      | none => parseConditions schema rest

/-- The private `__check_condition`: the supported operator strings and
their evaluation; any other operator string falls through to `False`. -/
def checkCondition (rowVal : Val) (op : String) (val : Val) : Option Bool :=
  if op = "=" then some (rowVal == val)
  else if op = ">" then pyLt val rowVal
  else if op = "<" then pyLt rowVal val
  else if op = ">=" then pyLe val rowVal
  else if op = "<=" then pyLe rowVal val
  else if op = "IN" then
    match rowVal, val with
    | Val.prim p, Val.vlist vs => some (vs.contains p)
    | _, _ => none
  else some false

/-- `check_row_conditions`: a row matches iff every parsed condition
evaluates to true; a missing (or null) column value never matches. -/
def check_row_conditions (row : Row) (conds : List Cond) : Option Bool :=
  match conds with
  | [] => some true
  | c :: rest =>
    let rv := dictGet row c.col
    if rv == Val.null then some false
    else
      match checkCondition rv c.op c.rhs with
      | none => none
      | some false => some false
      | some true => check_row_conditions row rest

end PyScylla

namespace Mockylla

/-! ## Dictionary lemmas -/

/-- The in-place part of `dictSet`. -/
def setEntries (r : Row) (k : String) (v : Val) : Row :=
  r.map (fun p => if p.1 == k then (k, v) else p)

theorem dictSet_eq (r : Row) (k : String) (v : Val) :
    dictSet r k v =
      if r.any (fun p => p.1 == k) then setEntries r k v else r ++ [(k, v)] := rfl

theorem find?_setEntries_self (r : Row) (k : String) (v : Val) :
    (setEntries r k v).find? (fun p => p.1 == k) =
      if r.any (fun p => p.1 == k) then some (k, v) else none := by
  induction r with
  | nil => rfl
  | cons p r ih =>
    show List.find? (fun q => q.1 == k)
        ((if p.1 == k then (k, v) else p) :: setEntries r k v) = _
    by_cases h : p.1 = k
    · rw [if_pos (by simp [h])]
      rw [List.find?_cons_of_pos _ (by simp)]
      simp [List.any_cons, h]
    · rw [if_neg (by simp [h])]
      rw [List.find?_cons_of_neg _ (by simp [h])]
      rw [ih]
      have hb : (p.1 == k) = false := by simp [h]
      rw [List.any_cons, hb, Bool.false_or]

theorem find?_setEntries_ne (r : Row) (k : String) (v : Val) (k' : String) (h : k' ≠ k) :
    (setEntries r k v).find? (fun p => p.1 == k') = r.find? (fun p => p.1 == k') := by
  induction r with
  | nil => rfl
  | cons p r ih =>
    show List.find? (fun q => q.1 == k')
        ((if p.1 == k then (k, v) else p) :: setEntries r k v) = _
    by_cases hp : p.1 = k
    · rw [if_pos (by simp [hp])]
      rw [List.find?_cons_of_neg _ (by simp [Ne.symm h])]
      rw [List.find?_cons_of_neg _ (by simp [hp, Ne.symm h])]
      exact ih
    · rw [if_neg (by simp [hp])]
      by_cases hq : p.1 = k'
      · rw [List.find?_cons_of_pos _ (by simp [hq]),
            List.find?_cons_of_pos _ (by simp [hq])]
      · rw [List.find?_cons_of_neg _ (by simp [hq]),
            List.find?_cons_of_neg _ (by simp [hq])]
        exact ih

theorem find?_append_none {α : Type} (p : α → Bool) (l1 l2 : List α)
    (h : l1.find? p = none) : (l1 ++ l2).find? p = l2.find? p := by
  induction l1 with
  | nil => rfl
  | cons a l ih =>
    have ha : p a = false := by
      cases hpa : p a
      · rfl
      · rw [List.find?_cons_of_pos _ hpa] at h
        exact absurd h (by simp)
    rw [List.find?_cons_of_neg _ (by simp [ha])] at h
    rw [List.cons_append, List.find?_cons_of_neg _ (by simp [ha])]
    exact ih h

theorem find?_append_some {α : Type} (p : α → Bool) (l1 l2 : List α) (q : α)
    (h : l1.find? p = some q) : (l1 ++ l2).find? p = some q := by
  induction l1 with
  | nil => simp [List.find?] at h
  | cons a l ih =>
    cases hpa : p a
    · rw [List.find?_cons_of_neg _ (by simp [hpa])] at h
      rw [List.cons_append, List.find?_cons_of_neg _ (by simp [hpa])]
      exact ih h
    · rw [List.find?_cons_of_pos _ hpa] at h
      rw [List.cons_append, List.find?_cons_of_pos _ hpa]
      exact h

/-- The characteristic equation of the Python dictionary assignment. -/
theorem dictGet_dictSet (r : Row) (k : String) (v : Val) (k' : String) :
    dictGet (dictSet r k v) k' = if k' = k then v else dictGet r k' := by
  by_cases hany : r.any (fun p => p.1 == k) = true
  · by_cases hk : k' = k
    · subst hk
      unfold dictGet dictGetD
      rw [dictSet_eq, if_pos hany, find?_setEntries_self r k' v, if_pos hany, if_pos rfl]
    · unfold dictGet dictGetD
      rw [dictSet_eq, if_pos hany, find?_setEntries_ne r k v k' hk, if_neg hk]
  · have hfind : r.find? (fun p => p.1 == k) = none := by
      rw [List.find?_eq_none]
      intro x hx
      simp only [List.any_eq_true, not_exists] at hany
      intro hxk
      exact hany x ⟨hx, hxk⟩
    by_cases hk : k' = k
    · subst hk
      unfold dictGet dictGetD
      rw [dictSet_eq, if_neg hany, if_pos rfl,
          find?_append_none _ _ _ hfind,
          List.find?_cons_of_pos _ (by simp)]
    · unfold dictGet dictGetD
      rw [dictSet_eq, if_neg hany, if_neg hk]
      cases hr : r.find? (fun p => p.1 == k') with
      | some q =>
        rw [find?_append_some _ _ _ _ hr]
      | none =>
        rw [find?_append_none _ _ _ hr,
            List.find?_cons_of_neg _ (by simp [Ne.symm hk])]
        rfl

theorem dictGet_dictSet_self (r : Row) (k : String) (v : Val) :
    dictGet (dictSet r k v) k = v := by
  simp [dictGet_dictSet]

theorem dictGet_dictSet_ne (r : Row) (k : String) (v : Val) (k' : String) (h : k' ≠ k) :
    dictGet (dictSet r k v) k' = dictGet r k' := by
  simp [dictGet_dictSet, h]

theorem dictGet_apply_write_metadata_ne (r : Row) (ts : Int) (ttl : Option Int)
    (tp : Bool) (now : Option Int) (k : String) (h : k ≠ "__meta") :
    dictGet (apply_write_metadata r ts ttl tp now) k = dictGet r k := by
  unfold apply_write_metadata
  exact dictGet_dictSet_ne _ _ _ _ h

theorem dictGet_apply_write_metadata_meta (r : Row) (ts : Int) (ttl : Option Int)
    (tp : Bool) (now : Option Int) :
    ∃ e, dictGet (apply_write_metadata r ts ttl tp now) "__meta" = Val.metaV ts e := by
  unfold apply_write_metadata
  exact ⟨_, dictGet_dictSet_self _ _ _⟩

end Mockylla

namespace Mockylla

/-! ## Supporting lemmas for the claims -/

theorem purge_primaryKey (now : Int) (t : Table) :
    (purge_expired_rows now t).primaryKey = t.primaryKey := rfl

theorem purge_schema (now : Int) (t : Table) :
    (purge_expired_rows now t).schema = t.schema := rfl

theorem purge_idem (now : Int) (t : Table) :
    purge_expired_rows now (purge_expired_rows now t) = purge_expired_rows now t := by
  unfold purge_expired_rows
  simp [List.filter_filter]

/-- Characterization of a non-conditional insert that found a live row
with the same primary key. -/
theorem handleInsertBody_noClause_found (t : Table) (a : InsertArgs) (ex : Row)
    (hclause : a.clause = LwtClause.noClause)
    (hpk : t.primaryKey ≠ [])
    (hfind : (purge_expired_rows a.now t).data.find?
        (pkMatches t.primaryKey a.rowData) = some ex) :
    handleInsertBody t a =
      if a.writeTimestamp < row_write_timestamp ex then
        some (purge_expired_rows a.now t, [])
      else
        some (setData (purge_expired_rows a.now t)
          (replaceFirst (pkMatches t.primaryKey a.rowData)
            (overwriteRow ex a (nowSecondsFor a.ttlValue a.ttlProvided a.now))
            (purge_expired_rows a.now t).data), []) := by
  have hempty : t.primaryKey.isEmpty = false := by
    cases h : t.primaryKey with
    | nil => exact absurd h hpk
    | cons x xs => rfl
  unfold handleInsertBody
  simp only [hclause, purge_primaryKey, hempty, Bool.false_eq_true, if_false, hfind]

/-- A valid TTL option lets the INSERT handler reach its body. -/
theorem handle_insert_into_eq_body (t : Table) (a : InsertArgs)
    (httl : ∀ ttl, a.ttlValue = some ttl → 0 ≤ ttl) :
    handle_insert_into t a = handleInsertBody t a := by
  unfold handle_insert_into
  cases h : a.ttlValue with
  | none => rfl
  | some ttl =>
    have hge := httl ttl h
    show (if ttl < 0 then none else handleInsertBody t a) = handleInsertBody t a
    rw [if_neg (by omega)]

/-- The concrete table of the C1 scenario: one live row with primary
key `id = 1`, value `v = 1`, written at timestamp 10. -/
def c1Row : Row := [("id", Val.int 1), ("v", Val.int 1), ("__meta", Val.metaV 10 none)]

def c1Table : Table :=
  { schema := [("id", "int"), ("v", "int")], primaryKey := ["id"], data := [c1Row] }

/-- The concrete unconditional INSERT of the C1 scenario: same primary
key, value `v = 2`, write timestamp 10 (a tie with the stored row). -/
def c1Args : InsertArgs :=
  { rowData := [("id", Val.int 1), ("v", Val.int 2)], clause := LwtClause.noClause,
    ttlValue := none, ttlProvided := false, writeTimestamp := 10, now := 100 }

/-- C1: the claim states that an unconditional INSERT whose write
timestamp is less than OR EQUAL to the existing row's timestamp is a
no-op (ties favoring the existing write).  The code only skips the
write on a strictly smaller timestamp: at an equal timestamp the stored
row is overwritten.  Here the stored row has value `v = 1` at timestamp
10 and an insert of `v = 2` at the same timestamp 10 changes the stored
value, refuting the claim. -/
theorem c1_counterexample :
    c1Args.writeTimestamp ≤ row_write_timestamp c1Row ∧
    c1Args.clause = LwtClause.noClause ∧
    ∃ t' res, handle_insert_into c1Table c1Args = some (t', res) ∧
      t'.data.map (fun r => dictGet r "v") ≠ c1Table.data.map (fun r => dictGet r "v") := by
  refine ⟨by decide, rfl,
    { schema := [("id", "int"), ("v", "int")], primaryKey := ["id"],
      data := [[("id", Val.int 1), ("v", Val.int 2), ("__meta", Val.metaV 10 none)]] },
    [], by decide, by decide⟩

/-- C1 (amended): for every unconditional INSERT into a table that
already holds a live row with the same primary-key tuple, the insert is
a no-op (stored row values, write timestamp and TTL metadata all
unchanged) exactly when the new write timestamp is STRICTLY less than
the existing row's; at an equal or greater timestamp the existing row
is replaced in place by the new column values and metadata (ties favor
the new write). -/
theorem c1_unconditional_insert_lww (t : Table) (a : InsertArgs) (ex : Row)
    (hclause : a.clause = LwtClause.noClause)
    (httl : ∀ ttl, a.ttlValue = some ttl → 0 ≤ ttl)
    (hpk : t.primaryKey ≠ [])
    (hfind : (purge_expired_rows a.now t).data.find?
        (pkMatches t.primaryKey a.rowData) = some ex) :
    (a.writeTimestamp < row_write_timestamp ex →
      handle_insert_into t a = some (purge_expired_rows a.now t, [])) ∧
    (row_write_timestamp ex ≤ a.writeTimestamp →
      handle_insert_into t a =
        some (setData (purge_expired_rows a.now t)
          (replaceFirst (pkMatches t.primaryKey a.rowData)
            (overwriteRow ex a (nowSecondsFor a.ttlValue a.ttlProvided a.now))
            (purge_expired_rows a.now t).data), [])) := by
  constructor
  · intro h
    rw [handle_insert_into_eq_body t a httl,
        handleInsertBody_noClause_found t a ex hclause hpk hfind, if_pos h]
  · intro h
    rw [handle_insert_into_eq_body t a httl,
        handleInsertBody_noClause_found t a ex hclause hpk hfind, if_neg (by omega)]

/-- C1 witness: the amended theorem applied to the concrete C1 table
with a strictly older insert (timestamp 9 against stored timestamp 10),
which is a no-op. -/
theorem c1_witness :
    handle_insert_into c1Table { c1Args with writeTimestamp := 9 } =
      some (purge_expired_rows 100 c1Table, []) := by
  have h := c1_unconditional_insert_lww c1Table { c1Args with writeTimestamp := 9 } c1Row
    rfl (by intro ttl hh; cases hh) (by decide) (by rfl)
  exact h.1 (by decide)

/-- Characterization of an `IF NOT EXISTS` insert. -/
theorem handleInsertBody_ifNotExists (t : Table) (a : InsertArgs)
    (hclause : a.clause = LwtClause.ifNotExists)
    (hpk : t.primaryKey ≠ []) :
    handleInsertBody t a =
      match (purge_expired_rows a.now t).data.find? (pkMatches t.primaryKey a.rowData) with
      | some ex => some (purge_expired_rows a.now t, [build_lwt_result false (some ex)])
      | none =>
        some (setData (purge_expired_rows a.now t)
          ((purge_expired_rows a.now t).data ++
            [freshRow a (nowSecondsFor a.ttlValue a.ttlProvided a.now)]),
          [build_lwt_result true]) := by
  have hempty : t.primaryKey.isEmpty = false := by
    cases h : t.primaryKey with
    | nil => exact absurd h hpk
    | cons x xs => rfl
  unfold handleInsertBody
  simp only [hclause, purge_primaryKey, hempty, Bool.false_eq_true, if_false]

/-- The empty concrete table of the C2 scenario. -/
def c2Table : Table :=
  { schema := [("id", "int"), ("v", "int")], primaryKey := ["id"], data := [] }

/-- The concrete `INSERT ... IF NOT EXISTS` of the C2 scenario. -/
def c2Args1 : InsertArgs :=
  { rowData := [("id", Val.int 1), ("v", Val.int 7)], clause := LwtClause.ifNotExists,
    ttlValue := none, ttlProvided := false, writeTimestamp := 10, now := 100 }

/-- The identical second insert, issued later. -/
def c2Args2 : InsertArgs :=
  { c2Args1 with writeTimestamp := 11, now := 200 }

/-- The row stored by the first C2 insert. -/
def c2Stored : Row := [("id", Val.int 1), ("v", Val.int 7), ("__meta", Val.metaV 10 none)]

/-- C2: for an `INSERT ... IF NOT EXISTS`, when no live row with the
same primary-key tuple exists the row is stored (with its write
metadata; all statement columns keep their values) and the result is a
single `[applied] = true` row; when such a row exists the live rows are
left untouched and the result is a single `[applied] = false` row
carrying the pre-existing row.  Running the same insert twice on the
concrete scenario reports true then false, the first row's values
unchanged. -/
theorem c2_insert_if_not_exists (t : Table) (a : InsertArgs)
    (hclause : a.clause = LwtClause.ifNotExists)
    (httl : ∀ ttl, a.ttlValue = some ttl → 0 ≤ ttl)
    (hpk : t.primaryKey ≠ []) :
    ((purge_expired_rows a.now t).data.find? (pkMatches t.primaryKey a.rowData) = none →
      handle_insert_into t a =
        some (setData (purge_expired_rows a.now t)
          ((purge_expired_rows a.now t).data ++
            [freshRow a (nowSecondsFor a.ttlValue a.ttlProvided a.now)]),
          [build_lwt_result true])) ∧
    (∀ ex, (purge_expired_rows a.now t).data.find? (pkMatches t.primaryKey a.rowData) = some ex →
      handle_insert_into t a =
        some (purge_expired_rows a.now t, [build_lwt_result false (some ex)])) ∧
    (∀ k, k ≠ "__meta" →
      dictGet (freshRow a (nowSecondsFor a.ttlValue a.ttlProvided a.now)) k =
        dictGet a.rowData k) ∧
    (handle_insert_into c2Table c2Args1 =
        some ({ c2Table with data := [c2Stored] }, [build_lwt_result true]) ∧
      handle_insert_into { c2Table with data := [c2Stored] } c2Args2 =
        some ({ c2Table with data := [c2Stored] }, [build_lwt_result false (some c2Stored)])) := by
  refine ⟨?_, ?_, ?_, by decide, by decide⟩
  · intro hfind
    rw [handle_insert_into_eq_body t a httl,
        handleInsertBody_ifNotExists t a hclause hpk, hfind]
  · intro ex hfind
    rw [handle_insert_into_eq_body t a httl,
        handleInsertBody_ifNotExists t a hclause hpk, hfind]
  · intro k hk
    exact dictGet_apply_write_metadata_ne _ _ _ _ _ k hk

/-- C2 witness: the theorem applied to the concrete empty table; the
first conjunct stores the row and reports applied. -/
theorem c2_witness :
    handle_insert_into c2Table c2Args1 =
      some (setData (purge_expired_rows 100 c2Table)
        ((purge_expired_rows 100 c2Table).data ++
          [freshRow c2Args1 (nowSecondsFor c2Args1.ttlValue c2Args1.ttlProvided c2Args1.now)]),
        [build_lwt_result true]) := by
  have h := c2_insert_if_not_exists c2Table c2Args1 rfl (by intro ttl hh; cases hh) (by decide)
  exact h.1 (by rfl)

/-- The concrete one-live-row table of the C9 scenario. -/
def c9Row : Row := [("id", Val.int 1), ("v", Val.int 3), ("__meta", Val.metaV 10 none)]

def c9Table : Table :=
  { schema := [("id", "int"), ("v", "int")], primaryKey := ["id"], data := [c9Row] }

/-- C9: a DELETE without a WHERE clause, or whose WHERE clause yields no
parseable condition, is a safe no-op: it returns normally with an empty
result, removes no live row (only rows already expired are purged, as
every mutation does), and is never a table-wide delete. -/
theorem c9_delete_no_where (t : Table) (clause : LwtClause) (now : Int) :
    handle_delete_from t none clause now = some (purge_expired_rows now t, []) ∧
    handle_delete_from t (some []) clause now = some (purge_expired_rows now t, []) ∧
    (∀ r ∈ t.data, isExpired now r = false → r ∈ (purge_expired_rows now t).data) := by
  refine ⟨rfl, rfl, ?_⟩
  intro r hr hexp
  unfold purge_expired_rows
  simp [List.mem_filter, hr, hexp]

/-- C9 witness: the theorem applied to the concrete one-row table; the
live row survives a DELETE without WHERE clause. -/
theorem c9_witness :
    handle_delete_from c9Table none LwtClause.noClause 100 =
      some (purge_expired_rows 100 c9Table, []) ∧
    c9Row ∈ (purge_expired_rows 100 c9Table).data := by
  have h := c9_delete_no_where c9Table LwtClause.noClause 100
  exact ⟨h.1, h.2.2 c9Row (by decide) (by decide)⟩

/-- The UPDATE handler purges before matching, like the INSERT one. -/
theorem handle_update_purge_first (t : Table) (a : UpdateArgs) :
    handle_update t a = handle_update (purge_expired_rows a.now t) a := by
  have hbody : handleUpdateBody (purge_expired_rows a.now t) a = handleUpdateBody t a := by
    unfold handleUpdateBody
    rw [purge_idem]
  unfold handle_update
  cases a.ttlValue with
  | none => rw [hbody]
  | some ttl => rw [hbody]

/-- The INSERT handler purges before matching. -/
theorem handle_insert_purge_first (t : Table) (a : InsertArgs) :
    handle_insert_into t a = handle_insert_into (purge_expired_rows a.now t) a := by
  have hbody : handleInsertBody (purge_expired_rows a.now t) a = handleInsertBody t a := by
    unfold handleInsertBody
    rw [purge_idem]
  unfold handle_insert_into
  cases a.ttlValue with
  | none => rw [hbody]
  | some ttl => rw [hbody]

/-- The concrete expired row of the C5 scenario: written at timestamp
10 with an expiry instant of 5, long past at time 100. -/
def c5Row : Row := [("id", Val.int 1), ("v", Val.int 2), ("__meta", Val.metaV 10 (some 5))]

def c5Table : Table :=
  { schema := [("id", "int"), ("v", "int")], primaryKey := ["id"], data := [c5Row] }

/-- C5 (amended): every mutation path (INSERT, UPDATE, DELETE) purges
expired rows from the target table before evaluating matches — each
handler behaves identically on the raw and on the pre-purged table —
but SELECT does NOT exclude expired rows: its projection covers every
stored row, expired or not, so an expired row stays visible to reads
until some mutation purges it. -/
theorem c5_expiry_purge_on_mutations (t : Table) (a : InsertArgs) (u : UpdateArgs)
    (wc : Option (List Cond)) (cl : LwtClause) (now : Int) :
    handle_insert_into t a = handle_insert_into (purge_expired_rows a.now t) a ∧
    handle_update t u = handle_update (purge_expired_rows u.now t) u ∧
    handle_delete_from t wc cl now = handle_delete_from (purge_expired_rows now t) wc cl now ∧
    handleSelectPlain t none [SelectItem.wildcard] none =
      some (t.data.map (fun r =>
        ⟨schemaKeys t.schema, (schemaKeys t.schema).map (fun c => dictGet r c)⟩)) := by
  refine ⟨handle_insert_purge_first t a, handle_update_purge_first t u, ?_, rfl⟩
  unfold handle_delete_from
  rw [purge_idem]

/-- C5 counterexample: the stored row of `c5Table` is expired at time
100 (and at any time after 5), yet a `SELECT *` — whose pipeline never
consults the clock — still returns it; a mutation on the same table
does purge it. -/
theorem c5_counterexample :
    isExpired 100 c5Row = true ∧
    handleSelectPlain c5Table none [SelectItem.wildcard] none =
      some [⟨["id", "v"], [Val.int 1, Val.int 2]⟩] ∧
    handle_delete_from c5Table none LwtClause.noClause 100 =
      some ({ c5Table with data := [] }, []) := by
  exact ⟨by decide, by decide, by decide⟩

/-! ## Primary-key uniqueness -/

/-- The primary-key tuple of a row. -/
def pkTuple (pk : List String) (r : Row) : List Val :=
  pk.map (fun k => dictGet r k)

/-- At most one live row per primary-key tuple. -/
def uniquePk (pk : List String) (data : List Row) : Prop :=
  (data.map (pkTuple pk)).Nodup

instance (pk : List String) (data : List Row) : Decidable (uniquePk pk data) := by
  unfold uniquePk
  infer_instance

theorem uniquePk_filter (pk : List String) (p : Row → Bool) (data : List Row)
    (h : uniquePk pk data) : uniquePk pk (data.filter p) :=
  List.Nodup.sublist (List.Sublist.map _ (List.filter_sublist data)) h

theorem pkMatches_iff (pk : List String) (rowData c : Row) :
    pkMatches pk rowData c = true ↔ pkTuple pk c = pkTuple pk rowData := by
  unfold pkMatches pkTuple
  rw [List.all_eq_true, List.map_eq_map_iff]
  constructor
  · intro h k hk
    simpa using h k hk
  · intro h k hk
    simpa using h k hk

theorem pkTuple_apply_write_metadata (pk : List String) (hmeta : "__meta" ∉ pk)
    (r : Row) (ts : Int) (ttl : Option Int) (tp : Bool) (now : Option Int) :
    pkTuple pk (apply_write_metadata r ts ttl tp now) = pkTuple pk r := by
  unfold pkTuple
  apply List.map_congr_left
  intro k hk
  exact dictGet_apply_write_metadata_ne r ts ttl tp now k (fun h => hmeta (h ▸ hk))

theorem pkTuple_freshRow (pk : List String) (hmeta : "__meta" ∉ pk)
    (a : InsertArgs) (ns : Option Int) :
    pkTuple pk (freshRow a ns) = pkTuple pk a.rowData :=
  pkTuple_apply_write_metadata pk hmeta _ _ _ _ _

theorem pkTuple_overwriteRow (pk : List String) (hmeta : "__meta" ∉ pk)
    (ex : Row) (a : InsertArgs) (ns : Option Int) :
    pkTuple pk (overwriteRow ex a ns) = pkTuple pk a.rowData := by
  unfold overwriteRow
  rw [pkTuple_apply_write_metadata pk hmeta]
  cases hpm : (if a.ttlProvided then none
      else match dictGet ex "__meta" with
           | Val.metaV ts e => some (Val.metaV ts e)
           | _ => none : Option Val) with
  | none => rfl
  | some m =>
    unfold pkTuple
    apply List.map_congr_left
    intro k hk
    exact dictGet_dictSet_ne _ _ _ k (fun h => hmeta (h ▸ hk))

theorem map_pkTuple_replaceFirst (pk : List String) (p : Row → Bool) (newRow : Row)
    (data : List Row)
    (h : ∀ r ∈ data, p r = true → pkTuple pk newRow = pkTuple pk r) :
    (replaceFirst p newRow data).map (pkTuple pk) = data.map (pkTuple pk) := by
  induction data with
  | nil => rfl
  | cons r rs ih =>
    unfold replaceFirst
    by_cases hp : p r = true
    · rw [if_pos hp]
      simp only [List.map_cons]
      rw [h r (by simp) hp]
    · rw [if_neg hp]
      simp only [List.map_cons]
      rw [ih (fun x hx hpx => h x (by simp [hx]) hpx)]

/-- Every execution path of the INSERT handler keeps the primary-key
tuples of the table pairwise distinct. -/
theorem insert_preserves_uniquePk (t : Table) (a : InsertArgs) (t' : Table)
    (res : List LwtResult)
    (hpk : t.primaryKey ≠ []) (hmeta : "__meta" ∉ t.primaryKey)
    (huniq : uniquePk t.primaryKey t.data)
    (h : handle_insert_into t a = some (t', res)) :
    uniquePk t.primaryKey t'.data := by
  have hempty : t.primaryKey.isEmpty = false := by
    cases hh : t.primaryKey with
    | nil => exact absurd hh hpk
    | cons x xs => rfl
  have hpurged : uniquePk t.primaryKey (purge_expired_rows a.now t).data :=
    uniquePk_filter _ _ _ huniq
  have hbody : handleInsertBody t a = some (t', res) := by
    unfold handle_insert_into at h
    cases httlv : a.ttlValue with
    | none => rw [httlv] at h; exact h
    | some ttl =>
      rw [httlv] at h
      dsimp only at h
      by_cases hlt : ttl < 0
      · rw [if_pos hlt] at h; cases h
      · rw [if_neg hlt] at h; exact h
  unfold handleInsertBody at hbody
  simp only [purge_primaryKey, hempty, Bool.false_eq_true, if_false] at hbody
  cases hfind : (purge_expired_rows a.now t).data.find? (pkMatches t.primaryKey a.rowData) with
  | none =>
    have hnotin : pkTuple t.primaryKey a.rowData ∉
        (purge_expired_rows a.now t).data.map (pkTuple t.primaryKey) := by
      intro hmem
      obtain ⟨r, hr, hEq⟩ := List.mem_map.mp hmem
      exact (List.find?_eq_none.mp hfind r hr) ((pkMatches_iff _ _ _).mpr hEq)
    have happend : uniquePk t.primaryKey
        ((purge_expired_rows a.now t).data ++
          [freshRow a (nowSecondsFor a.ttlValue a.ttlProvided a.now)]) := by
      unfold uniquePk
      rw [List.map_append, List.nodup_append]
      refine ⟨hpurged, List.nodup_singleton _, ?_⟩
      intro x hx hy
      simp only [List.map_cons, List.map_nil, List.mem_singleton] at hy
      rw [pkTuple_freshRow t.primaryKey hmeta] at hy
      exact hnotin (hy ▸ hx)
    rw [hfind] at hbody
    cases hcl : a.clause
    case noClause =>
      rw [hcl] at hbody
      dsimp only at hbody
      simp only [Option.some.injEq, Prod.mk.injEq] at hbody
      obtain ⟨h1, _⟩ := hbody; subst h1
      exact happend
    case ifNotExists =>
      rw [hcl] at hbody
      dsimp only at hbody
      simp only [Option.some.injEq, Prod.mk.injEq] at hbody
      obtain ⟨h1, _⟩ := hbody; subst h1
      exact happend
    case ifExists =>
      rw [hcl] at hbody
      dsimp only at hbody
      simp only [Option.some.injEq, Prod.mk.injEq] at hbody
      obtain ⟨h1, _⟩ := hbody; subst h1
      exact hpurged
    case conds cs =>
      rw [hcl] at hbody
      dsimp only at hbody
      simp only [Option.some.injEq, Prod.mk.injEq] at hbody
      obtain ⟨h1, _⟩ := hbody; subst h1
      exact hpurged
  | some ex =>
    have hover : uniquePk t.primaryKey
        (replaceFirst (pkMatches t.primaryKey a.rowData)
          (overwriteRow ex a (nowSecondsFor a.ttlValue a.ttlProvided a.now))
          (purge_expired_rows a.now t).data) := by
      unfold uniquePk
      rw [map_pkTuple_replaceFirst]
      · exact hpurged
      · intro r _ hpr
        rw [pkTuple_overwriteRow t.primaryKey hmeta]
        exact ((pkMatches_iff _ _ _).mp hpr).symm
    rw [hfind] at hbody
    cases hcl : a.clause
    case noClause =>
      rw [hcl] at hbody
      dsimp only at hbody
      by_cases hts : a.writeTimestamp < row_write_timestamp ex
      · rw [if_pos hts] at hbody
        simp only [Option.some.injEq, Prod.mk.injEq] at hbody
        obtain ⟨h1, _⟩ := hbody; subst h1
        exact hpurged
      · rw [if_neg hts] at hbody
        simp only [Option.some.injEq, Prod.mk.injEq] at hbody
        obtain ⟨h1, _⟩ := hbody; subst h1
        exact hover
    case ifNotExists =>
      rw [hcl] at hbody
      dsimp only at hbody
      simp only [Option.some.injEq, Prod.mk.injEq] at hbody
      obtain ⟨h1, _⟩ := hbody; subst h1
      exact hpurged
    case ifExists =>
      rw [hcl] at hbody
      dsimp only at hbody
      by_cases hts : a.writeTimestamp < row_write_timestamp ex
      · rw [if_pos hts] at hbody
        simp only [Option.some.injEq, Prod.mk.injEq] at hbody
        obtain ⟨h1, _⟩ := hbody; subst h1
        exact hpurged
      · rw [if_neg hts] at hbody
        simp only [Option.some.injEq, Prod.mk.injEq] at hbody
        obtain ⟨h1, _⟩ := hbody; subst h1
        exact hover
    case conds cs =>
      rw [hcl] at hbody
      dsimp only at hbody
      cases hcrc : check_row_conditions ex cs with
      | none => rw [hcrc] at hbody; cases hbody
      | some b =>
        rw [hcrc] at hbody
        cases b
        · simp only [Option.some.injEq, Prod.mk.injEq] at hbody
          obtain ⟨h1, _⟩ := hbody; subst h1
          exact hpurged
        · by_cases hts : a.writeTimestamp < row_write_timestamp ex
          · rw [if_pos hts] at hbody
            simp only [Option.some.injEq, Prod.mk.injEq] at hbody
            obtain ⟨h1, _⟩ := hbody; subst h1
            exact hpurged
          · rw [if_neg hts] at hbody
            simp only [Option.some.injEq, Prod.mk.injEq] at hbody
            obtain ⟨h1, _⟩ := hbody; subst h1
            exact hover

/-- The kept partition of the DELETE handler is a sublist of the data. -/
theorem partitionByConds_keep_sublist (cs : List Cond) (l : List Row)
    (del keep : List Row) (h : partitionByConds cs l = some (del, keep)) :
    keep.Sublist l := by
  induction l generalizing del keep with
  | nil =>
    unfold partitionByConds at h
    simp only [Option.some.injEq, Prod.mk.injEq] at h
    obtain ⟨_, h2⟩ := h
    subst h2
    exact List.Sublist.refl _
  | cons r rs ih =>
    unfold partitionByConds at h
    cases hc : check_row_conditions r cs with
    | none => rw [hc] at h; cases h
    | some b =>
      rw [hc] at h
      cases b
      · cases hrec : partitionByConds cs rs with
        | none => rw [hrec] at h; cases h
        | some p =>
          obtain ⟨del2, keep2⟩ := p
          rw [hrec] at h
          dsimp only at h
          simp only [Option.some.injEq, Prod.mk.injEq] at h
          obtain ⟨_, h2⟩ := h
          subst h2
          exact List.Sublist.cons₂ r (ih del2 keep2 hrec)
      · cases hrec : partitionByConds cs rs with
        | none => rw [hrec] at h; cases h
        | some p =>
          obtain ⟨del2, keep2⟩ := p
          rw [hrec] at h
          dsimp only at h
          simp only [Option.some.injEq, Prod.mk.injEq] at h
          obtain ⟨_, h2⟩ := h
          subst h2
          exact List.Sublist.cons r (ih del2 keep2 hrec)

/-- Every execution path of the DELETE handler keeps the primary-key
tuples of the table pairwise distinct. -/
theorem delete_preserves_uniquePk (t : Table) (wc : Option (List Cond))
    (cl : LwtClause) (now : Int) (t' : Table) (res : List LwtResult)
    (huniq : uniquePk t.primaryKey t.data)
    (h : handle_delete_from t wc cl now = some (t', res)) :
    uniquePk t.primaryKey t'.data := by
  have hpurged : uniquePk t.primaryKey (purge_expired_rows now t).data :=
    uniquePk_filter _ _ _ huniq
  unfold handle_delete_from at h
  cases wc with
  | none =>
    simp only [Option.some.injEq, Prod.mk.injEq] at h
    obtain ⟨h1, _⟩ := h; subst h1
    exact hpurged
  | some cs =>
    cases cs with
    | nil =>
      simp only [Option.some.injEq, Prod.mk.injEq] at h
      obtain ⟨h1, _⟩ := h; subst h1
      exact hpurged
    | cons c cs2 =>
      dsimp only at h
      cases hpart : partitionByConds (c :: cs2) (purge_expired_rows now t).data with
      | none => rw [hpart] at h; cases h
      | some p =>
        obtain ⟨del, keep⟩ := p
        rw [hpart] at h
        dsimp only at h
        have hukeep : uniquePk t.primaryKey keep :=
          List.Nodup.sublist
            (List.Sublist.map _ (partitionByConds_keep_sublist _ _ _ _ hpart)) hpurged
        cases cl with
        | ifNotExists =>
          cases del with
          | nil =>
            simp only [Option.some.injEq, Prod.mk.injEq] at h
            obtain ⟨h1, _⟩ := h; subst h1
            exact hpurged
          | cons d ds =>
            simp only [Option.some.injEq, Prod.mk.injEq] at h
            obtain ⟨h1, _⟩ := h; subst h1
            exact hpurged
        | ifExists =>
          cases del with
          | nil =>
            simp only [Option.some.injEq, Prod.mk.injEq] at h
            obtain ⟨h1, _⟩ := h; subst h1
            exact hpurged
          | cons d ds =>
            simp only [Option.some.injEq, Prod.mk.injEq] at h
            obtain ⟨h1, _⟩ := h; subst h1
            exact hukeep
        | conds lwtCs =>
          cases del with
          | nil =>
            simp only [Option.some.injEq, Prod.mk.injEq] at h
            obtain ⟨h1, _⟩ := h; subst h1
            exact hpurged
          | cons d ds =>
            dsimp only at h
            cases hff : firstFailingRow lwtCs (d :: ds) with
            | none => rw [hff] at h; cases h
            | some o =>
              rw [hff] at h
              cases o with
              | none =>
                simp only [Option.some.injEq, Prod.mk.injEq] at h
                obtain ⟨h1, _⟩ := h; subst h1
                exact hukeep
              | some rr =>
                simp only [Option.some.injEq, Prod.mk.injEq] at h
                obtain ⟨h1, _⟩ := h; subst h1
                exact hpurged
        | noClause =>
          by_cases hlen : del.length > 0
          · rw [if_pos hlen] at h
            simp only [Option.some.injEq, Prod.mk.injEq] at h
            obtain ⟨h1, _⟩ := h; subst h1
            exact hukeep
          · rw [if_neg hlen] at h
            simp only [Option.some.injEq, Prod.mk.injEq] at h
            obtain ⟨h1, _⟩ := h; subst h1
            exact hpurged

/-- The concrete C3 scenario: a table keyed on `id` holding one row
with `id = 1, v = 7`. -/
def c3Row : Row := [("id", Val.int 1), ("v", Val.int 7), ("__meta", Val.metaV 10 none)]

def c3Table : Table :=
  { schema := [("id", "int"), ("v", "int"), ("x", "int")], primaryKey := ["id"],
    data := [c3Row] }

/-- The concrete UPDATE of the C3 scenario:
`UPDATE ... SET x = 1 WHERE id = 1 AND v = 3`.  The stored row has
`v = 7`, so no row matches, and the upsert path synthesizes a second
row with the already present primary key `id = 1`. -/
def c3Update : UpdateArgs :=
  { setOps := [("x", Val.int 1)], counterOps := [],
    conds := [⟨"id", "=", Val.int 1⟩, ⟨"v", "=", Val.int 3⟩],
    clause := LwtClause.noClause, ttlValue := none, ttlProvided := false,
    writeTimestamp := 50, now := 100 }

/-- C3 counterexample: the update-upsert path violates primary-key
uniqueness.  Starting from a table whose primary-key tuples are
pairwise distinct, the UPDATE above appends a second live row with the
same primary key `id = 1`. -/
theorem c3_counterexample :
    uniquePk c3Table.primaryKey c3Table.data ∧
    ∃ t' res, handle_update c3Table c3Update = some (t', res) ∧
      ¬ uniquePk c3Table.primaryKey t'.data := by
  refine ⟨by decide,
    { schema := [("id", "int"), ("v", "int"), ("x", "int")], primaryKey := ["id"],
      data := [c3Row,
        [("id", Val.int 1), ("v", Val.int 3), ("x", Val.int 1),
         ("__meta", Val.metaV 50 none)]] },
    [], by decide, by decide⟩

/-- C3 (amended): the uniqueness of the primary-key tuple is an
invariant of the INSERT handler (every clause shape) and of the DELETE
handler, but NOT of the UPDATE handler: its upsert path can append a
row duplicating an existing primary key (see the counterexample), so
the claimed every-mutation invariant must exclude UPDATE. -/
theorem c3_unique_pk_invariant (t : Table)
    (hpk : t.primaryKey ≠ []) (hmeta : "__meta" ∉ t.primaryKey)
    (huniq : uniquePk t.primaryKey t.data) :
    (∀ a t' res, handle_insert_into t a = some (t', res) →
      uniquePk t.primaryKey t'.data) ∧
    (∀ wc cl now t' res, handle_delete_from t wc cl now = some (t', res) →
      uniquePk t.primaryKey t'.data) := by
  constructor
  · intro a t' res h
    exact insert_preserves_uniquePk t a t' res hpk hmeta huniq h
  · intro wc cl now t' res h
    exact delete_preserves_uniquePk t wc cl now t' res huniq h

/-- C3 witness: the invariant theorem applied to the concrete C3
table; a DELETE without WHERE clause keeps the tuples distinct. -/
theorem c3_witness :
    uniquePk c3Table.primaryKey (purge_expired_rows 100 c3Table).data := by
  have h := c3_unique_pk_invariant c3Table (by decide) (by decide) (by decide)
  exact h.2 none LwtClause.noClause 100 (purge_expired_rows 100 c3Table) [] rfl

/-- A valid TTL option lets the UPDATE handler reach its body. -/
theorem handle_update_eq_body (t : Table) (a : UpdateArgs)
    (httl : ∀ ttl, a.ttlValue = some ttl → 0 ≤ ttl) :
    handle_update t a = handleUpdateBody t a := by
  unfold handle_update
  cases h : a.ttlValue with
  | none => rfl
  | some ttl =>
    have hge := httl ttl h
    show (if ttl < 0 then none else handleUpdateBody t a) = handleUpdateBody t a
    rw [if_neg (by omega)]

/-- When no row matches the equality predicate the update loop leaves
the data untouched and reports zero updated rows. -/
theorem update_existing_rows_no_match (a : UpdateArgs) (ns : Option Int) (l : List Row)
    (h : ∀ r ∈ l, updateCheckRow r a.conds = false) :
    update_existing_rows a ns l = some (l, 0) := by
  induction l with
  | nil => rfl
  | cons r rs ih =>
    have hr : updateCheckRow r a.conds = false := h r (by simp)
    unfold update_existing_rows
    rw [hr]
    simp only [Bool.false_eq_true, if_false]
    rw [ih (fun x hx => h x (by simp [hx]))]

/-- The applied flag of the upsert skeleton is exactly the presence of
an equality condition. -/
theorem upsertRowBase_flag (conds : List Cond) :
    (upsertRowBase conds).2 = conds.any (fun c => c.op == "=") := by
  have aux : ∀ (cs : List Cond) (acc : Row × Bool),
      (cs.foldl (fun acc c =>
        if c.op = "=" then (dictSet acc.1 c.col c.rhs, true) else acc) acc).2 =
        (acc.2 || cs.any (fun c => c.op == "=")) := by
    intro cs
    induction cs with
    | nil => intro acc; simp
    | cons c cs ih =>
      intro acc
      simp only [List.foldl_cons, List.any_cons]
      by_cases hc : c.op = "="
      · rw [if_pos hc, ih]
        simp [hc]
      · rw [if_neg hc, ih]
        have hb : (c.op == "=") = false := by simp [hc]
        rw [hb, Bool.false_or]
  unfold upsertRowBase
  rw [aux]
  show (false || _) = _
  exact Bool.false_or _

/-- The row appended by the upsert path. -/
def upsertNewRow (a : UpdateArgs) (ns : Option Int) : Row :=
  apply_write_metadata
    (a.counterOps.foldl (fun r (p : String × Int) => dictSet r p.1 (Val.int p.2))
      (dictUpdate (upsertRowBase a.conds).1 a.setOps))
    a.writeTimestamp a.ttlValue a.ttlProvided ns

theorem handle_upsert_no_eq (a : UpdateArgs) (ns : Option Int) (data : List Row)
    (h : (upsertRowBase a.conds).2 = false) :
    handle_upsert a ns data = data := by
  unfold handle_upsert
  dsimp only
  rw [h]
  rfl

theorem handle_upsert_with_eq (a : UpdateArgs) (ns : Option Int) (data : List Row)
    (h : (upsertRowBase a.conds).2 = true) :
    handle_upsert a ns data = data ++ [upsertNewRow a ns] := by
  unfold handle_upsert
  dsimp only
  rw [h]
  rfl

/-- C4 (amended): a non-conditional UPDATE whose WHERE predicate
matches no row creates a new row exactly when the predicate contains AT
LEAST ONE equality condition — the new row is built from the equality
values plus the SET assignments and counter values, silently ignoring
every non-equality condition — and creates nothing only when the
predicate contains no equality condition at all. -/
theorem c4_update_upsert_on_miss (t : Table) (a : UpdateArgs)
    (hclause : a.clause = LwtClause.noClause)
    (httl : ∀ ttl, a.ttlValue = some ttl → 0 ≤ ttl)
    (hnomatch : ∀ r ∈ (purge_expired_rows a.now t).data,
      updateCheckRow r a.conds = false) :
    ((∃ c ∈ a.conds, c.op = "=") →
      handle_update t a =
        some (setData (purge_expired_rows a.now t)
          ((purge_expired_rows a.now t).data ++
            [upsertNewRow a (nowSecondsFor a.ttlValue a.ttlProvided a.now)]), [])) ∧
    ((∀ c ∈ a.conds, c.op ≠ "=") →
      handle_update t a = some (purge_expired_rows a.now t, [])) := by
  have hfilter : (purge_expired_rows a.now t).data.filter
      (fun r => updateCheckRow r a.conds) = [] := by
    rw [List.filter_eq_nil_iff]
    intro r hr
    simp [hnomatch r hr]
  have hcommon : handle_update t a =
      some (setData (purge_expired_rows a.now t)
        (handle_upsert a (nowSecondsFor a.ttlValue a.ttlProvided a.now)
          (purge_expired_rows a.now t).data), []) := by
    rw [handle_update_eq_body t a httl]
    unfold handleUpdateBody
    rw [hclause]
    dsimp only
    rw [hfilter,
        update_existing_rows_no_match a _ (purge_expired_rows a.now t).data hnomatch]
    rfl
  constructor
  · intro hex
    rw [hcommon, handle_upsert_with_eq]
    rw [upsertRowBase_flag]
    rw [List.any_eq_true]
    obtain ⟨c, hc, hop⟩ := hex
    exact ⟨c, hc, by simp [hop]⟩
  · intro hnone
    rw [hcommon, handle_upsert_no_eq]
    · show some (setData (purge_expired_rows a.now t) (purge_expired_rows a.now t).data, []) = _
      rfl
    · rw [upsertRowBase_flag]
      rw [List.any_eq_false]
      intro c hc
      simp [hnone c hc]

/-- The concrete empty table of the C4 scenario. -/
def c4Table : Table :=
  { schema := [("id", "int"), ("v", "int"), ("w", "int")], primaryKey := ["id"],
    data := [] }

/-- The concrete UPDATE of the C4 scenario:
`UPDATE ... SET w = 1 WHERE id = 5 AND v > 3` on the empty table; the
WHERE predicate contains the non-equality condition `v > 3`. -/
def c4Args : UpdateArgs :=
  { setOps := [("w", Val.int 1)], counterOps := [],
    conds := [⟨"id", "=", Val.int 5⟩, ⟨"v", ">", Val.int 3⟩],
    clause := LwtClause.noClause, ttlValue := none, ttlProvided := false,
    writeTimestamp := 50, now := 100 }

/-- C4 counterexample: the claim states that a WHERE predicate
containing ANY non-equality condition must create no row.  The UPDATE
above carries the non-equality condition `v > 3`, matches nothing on
the empty table, and yet creates the row `{id: 5, w: 1}`. -/
theorem c4_counterexample :
    (∃ c ∈ c4Args.conds, c.op ≠ "=") ∧
    handle_update c4Table c4Args =
      some ({ schema := [("id", "int"), ("v", "int"), ("w", "int")],
              primaryKey := ["id"],
              data := [[("id", Val.int 5), ("w", Val.int 1),
                        ("__meta", Val.metaV 50 none)]] }, []) := by
  constructor
  · exact ⟨⟨"v", ">", Val.int 3⟩, by decide, by decide⟩
  · decide

/-- C4 witness: the amended theorem applied to the concrete empty table
with the mixed predicate; the equality condition makes the upsert
create a row. -/
theorem c4_witness :
    handle_update c4Table c4Args =
      some (setData (purge_expired_rows 100 c4Table)
        ((purge_expired_rows 100 c4Table).data ++
          [upsertNewRow c4Args (nowSecondsFor c4Args.ttlValue c4Args.ttlProvided c4Args.now)]),
        []) := by
  have h := c4_update_upsert_on_miss c4Table c4Args rfl
    (by intro ttl hh; cases hh) (by intro r hr; cases hr)
  exact h.1 ⟨⟨"id", "=", Val.int 5⟩, by decide, rfl⟩

/-! ## Aggregate lemmas (C6) -/

/-- Dropping the null-valued rows beforehand does not change the
non-null value list an aggregate consumes. -/
theorem aggValues_filter (rows : List Row) (arg : String) :
    aggValues (rows.filter (fun r => dictGet r arg != Val.null)) arg =
      aggValues rows arg := by
  induction rows with
  | nil => rfl
  | cons r rs ih =>
    by_cases hv : dictGet r arg = Val.null
    · have hb : (dictGet r arg != Val.null) = false := by simp [hv]
      rw [List.filter_cons, hb]
      simp only [Bool.false_eq_true, if_false]
      rw [ih]
      unfold aggValues
      rw [List.map_cons, List.filter_cons, hb]
      simp only [Bool.false_eq_true, if_false]
    · have hb : (dictGet r arg != Val.null) = true := by simp [hv]
      rw [List.filter_cons, hb]
      simp only [if_true]
      unfold aggValues
      rw [List.map_cons, List.map_cons, List.filter_cons, List.filter_cons, hb]
      simp only [if_true]
      have := ih
      unfold aggValues at this
      rw [this]

/-- A column that is null or absent on every row contributes no
aggregate values. -/
theorem aggValues_all_null (rows : List Row) (arg : String)
    (h : ∀ r ∈ rows, dictGet r arg = Val.null) :
    aggValues rows arg = [] := by
  induction rows with
  | nil => rfl
  | cons r rs ih =>
    unfold aggValues
    rw [List.map_cons, List.filter_cons]
    have hb : (dictGet r arg != Val.null) = false := by simp [h r (by simp)]
    rw [hb]
    simp only [Bool.false_eq_true, if_false]
    have := ih (fun x hx => h x (by simp [hx]))
    unfold aggValues at this
    exact this

/-- The concrete rows of the C6 scenario: scores 10, 40, 5. -/
def c6Rows : List Row :=
  [[("id", Val.int 1), ("score", Val.int 10)],
   [("id", Val.int 2), ("score", Val.int 40)],
   [("id", Val.int 3), ("score", Val.int 5)]]

/-- C6: null/absent column values are excluded from every aggregate
except `COUNT(*)`/`COUNT(1)` (computing over the pre-filtered non-null
rows gives the same result), `COUNT(*)` counts every row, the empty (or
fully null) input set yields SUM = 0 and MIN = MAX = AVG = null, and
the concrete scores {10, 40, 5} give SUM, MIN, MAX = (55, 5, 40). -/
theorem c6_aggregate_semantics :
    (∀ (rows : List Row) (f arg : String) (d : Bool),
      ¬(f = "count" ∧ d = false ∧ (arg = "*" ∨ arg = "1")) →
      computeAggregate rows f arg d =
        computeAggregate (rows.filter (fun r => dictGet r arg != Val.null)) f arg d) ∧
    (∀ rows : List Row,
      computeAggregate rows "count" "*" false = some (Val.int rows.length)) ∧
    (∀ (rows : List Row) (arg : String), (∀ r ∈ rows, dictGet r arg = Val.null) →
      computeAggregate rows "sum" arg false = some (Val.int 0) ∧
      computeAggregate rows "min" arg false = some Val.null ∧
      computeAggregate rows "max" arg false = some Val.null ∧
      computeAggregate rows "avg" arg false = some Val.null) ∧
    (computeAggregate c6Rows "sum" "score" false = some (Val.int 55) ∧
     computeAggregate c6Rows "min" "score" false = some (Val.int 5) ∧
     computeAggregate c6Rows "max" "score" false = some (Val.int 40)) := by
  refine ⟨?_, ?_, ?_, by decide, by decide, by decide⟩
  · intro rows f arg d hnot
    unfold computeAggregate
    by_cases hf : f = "count"
    · subst hf
      rw [if_pos rfl, if_pos rfl]
      cases d with
      | true =>
        simp only [if_true]
        rw [aggValues_filter]
      | false =>
        simp only [Bool.false_eq_true, if_false]
        have harg : ¬(arg = "*" ∨ arg = "1") := fun hor => hnot ⟨rfl, rfl, hor⟩
        have h1 : ¬arg = "*" := fun h => harg (Or.inl h)
        have h2 : ¬arg = "1" := fun h => harg (Or.inr h)
        have hb : (decide (arg = "*") || decide (arg = "1")) = false := by
          simp [h1, h2]
        rw [hb]
        simp only [Bool.false_eq_true, if_false]
        rw [aggValues_filter]
    · rw [if_neg hf, if_neg hf]
      rw [aggValues_filter]
  · intro rows
    rfl
  · intro rows arg hnull
    have hv := aggValues_all_null rows arg hnull
    refine ⟨?_, ?_, ?_, ?_⟩ <;>
      · unfold computeAggregate
        rw [hv]
        rfl

/-- C6 witness: the theorem applied at concrete inputs — the exclusion
conjunct on a one-row list whose `score` is absent, and the
empty-input conjunct on the same list. -/
theorem c6_witness :
    computeAggregate [[("other", Val.int 1)]] "min" "score" false =
      computeAggregate
        ([[("other", Val.int 1)]].filter (fun r => dictGet r "score" != Val.null))
        "min" "score" false ∧
    computeAggregate [[("other", Val.int 1)]] "sum" "score" false =
      some (Val.int 0) := by
  have h := c6_aggregate_semantics
  refine ⟨h.1 [[("other", Val.int 1)]] "min" "score" false (by simp), ?_⟩
  exact (h.2.2.1 [[("other", Val.int 1)]] "score" (by decide)).1

/-! ## DISTINCT lemmas (C7) -/

/-- Claim-side definition for C7, following the claim wording: walk the
projected rows in order and keep each row whose value tuple has not
been output before, so each distinct output row appears exactly once,
at the position of its first occurrence. -/
def specDistinctRows (rows : List ResultRow) : List ResultRow :=
  rows.foldl (fun acc r =>
    if acc.any (fun s => s.values == r.values) then acc else acc ++ [r]) []

theorem dedupSeen_foldl (rows : List ResultRow) :
    ∀ (seen : List (List Val)) (acc : List ResultRow),
      (∀ v, seen.contains v = acc.any (fun s => s.values == v)) →
      acc ++ dedupSeen seen rows =
        rows.foldl (fun acc r =>
          if acc.any (fun s => s.values == r.values) then acc else acc ++ [r]) acc := by
  induction rows with
  | nil =>
    intro seen acc hinv
    simp [dedupSeen]
  | cons r rs ih =>
    intro seen acc hinv
    unfold dedupSeen
    rw [List.foldl_cons]
    by_cases hmem : seen.contains r.values = true
    · rw [if_pos hmem, if_pos ((hinv r.values) ▸ hmem)]
      exact ih seen acc hinv
    · have hacc : acc.any (fun s => s.values == r.values) = false := by
        rw [← hinv r.values]
        exact Bool.not_eq_true _ ▸ (by simpa using hmem)
      rw [if_neg hmem, if_neg (by simp [hacc])]
      have hinv2 : ∀ v, (r.values :: seen).contains v =
          (acc ++ [r]).any (fun s => s.values == v) := by
        intro v
        rw [List.contains_cons, List.any_append, hinv v]
        simp only [List.any_cons, List.any_nil, Bool.or_false]
        rw [Bool.or_comm]
        have : (v == r.values) = (r.values == v) := by
          simp [beq_iff_eq, eq_comm]
        rw [this]
      have := ih (r.values :: seen) (acc ++ [r]) hinv2
      rw [← this, List.append_assoc]
      rfl

/-- The implementation of `__deduplicate_rows` meets the claim-side
first-occurrence description. -/
theorem deduplicateRows_eq_spec (rows : List ResultRow) :
    deduplicateRows rows = specDistinctRows rows := by
  have h := dedupSeen_foldl rows [] [] (fun v => rfl)
  simpa [deduplicateRows, specDistinctRows] using h

theorem dedupSeen_sublist (rows : List ResultRow) :
    ∀ seen, (dedupSeen seen rows).Sublist rows := by
  induction rows with
  | nil => intro seen; exact List.Sublist.refl _
  | cons r rs ih =>
    intro seen
    unfold dedupSeen
    by_cases h : seen.contains r.values = true
    · rw [if_pos h]
      exact (ih seen).cons r
    · rw [if_neg h]
      exact (ih _).cons₂ r

theorem dedupSeen_not_seen (rows : List ResultRow) :
    ∀ seen v, seen.contains v = true →
      v ∉ (dedupSeen seen rows).map (fun s => s.values) := by
  induction rows with
  | nil => intro seen v hv; simp [dedupSeen]
  | cons r rs ih =>
    intro seen v hv
    unfold dedupSeen
    by_cases h : seen.contains r.values = true
    · rw [if_pos h]
      exact ih seen v hv
    · rw [if_neg h, List.map_cons]
      intro hmem
      rcases List.mem_cons.mp hmem with heq | hmem2
      · rw [heq] at hv
        exact absurd hv (by simpa using h)
      · refine ih (r.values :: seen) v ?_ hmem2
        rw [List.contains_cons, hv]
        simp
  
theorem dedupSeen_nodup (rows : List ResultRow) :
    ∀ seen, ((dedupSeen seen rows).map (fun s => s.values)).Nodup := by
  induction rows with
  | nil => intro seen; simp [dedupSeen]
  | cons r rs ih =>
    intro seen
    unfold dedupSeen
    by_cases h : seen.contains r.values = true
    · rw [if_pos h]
      exact ih seen
    · rw [if_neg h, List.map_cons, List.nodup_cons]
      refine ⟨?_, ih _⟩
      refine dedupSeen_not_seen rs (r.values :: seen) r.values ?_
      rw [List.contains_cons]
      simp

theorem dedupSeen_complete (rows : List ResultRow) :
    ∀ seen, ∀ r ∈ rows, seen.contains r.values = true ∨
      r.values ∈ (dedupSeen seen rows).map (fun s => s.values) := by
  induction rows with
  | nil => intro seen r hr; cases hr
  | cons x rs ih =>
    intro seen r hr
    unfold dedupSeen
    by_cases h : seen.contains x.values = true
    · rw [if_pos h]
      rcases List.mem_cons.mp hr with heq | hmem
      · rw [heq]
        exact Or.inl h
      · exact ih seen r hmem
    · rw [if_neg h]
      rcases List.mem_cons.mp hr with heq | hmem
      · rw [heq]
        exact Or.inr (by simp)
      · rcases ih (x.values :: seen) r hmem with hc | hm
        · rw [List.contains_cons] at hc
          rcases Bool.or_eq_true_iff.mp hc with hx | hs
          · exact Or.inr (by simp [List.map_cons]; left; exact eq_of_beq hx)
          · exact Or.inl hs
        · exact Or.inr (by simp [hm])

/-- The concrete table of the C7 scenario: cities A, A, B. -/
def c7Table : Table :=
  { schema := [("id", "int"), ("city", "text")], primaryKey := ["id"],
    data := [[("id", Val.int 1), ("city", Val.text "A")],
             [("id", Val.int 2), ("city", Val.text "A")],
             [("id", Val.int 3), ("city", Val.text "B")]] }

/-- C7: the DISTINCT deduplication returns each distinct output row
exactly once in first-occurrence order: it equals the claim-side
first-occurrence fold, is an order-preserving sublist of its input with
pairwise distinct value tuples that covers every input row's tuple; on
the concrete city column A, A, B the full DISTINCT pipeline yields the
two rows A then B. -/
theorem c7_select_distinct :
    (∀ rows : List ResultRow, deduplicateRows rows = specDistinctRows rows) ∧
    (∀ rows : List ResultRow, (deduplicateRows rows).Sublist rows) ∧
    (∀ rows : List ResultRow,
      ((deduplicateRows rows).map (fun s => s.values)).Nodup) ∧
    (∀ (rows : List ResultRow), ∀ r ∈ rows,
      r.values ∈ (deduplicateRows rows).map (fun s => s.values)) ∧
    (handleSelectDistinct c7Table none [SelectItem.column "city" "city"] none =
      some [⟨["city"], [Val.text "A"]⟩, ⟨["city"], [Val.text "B"]⟩]) := by
  refine ⟨deduplicateRows_eq_spec, ?_, ?_, ?_, by decide⟩
  · intro rows
    exact dedupSeen_sublist rows []
  · intro rows
    exact dedupSeen_nodup rows []
  · intro rows r hr
    rcases dedupSeen_complete rows [] r hr with hc | hm
    · cases hc
    · exact hm

/-- C7 witness: the completeness conjunct applied to a concrete
two-row duplicate list. -/
theorem c7_witness :
    (⟨["city"], [Val.text "A"]⟩ : ResultRow).values ∈
      (deduplicateRows [⟨["city"], [Val.text "A"]⟩, ⟨["city"], [Val.text "A"]⟩]).map
        (fun s => s.values) := by
  exact c7_select_distinct.2.2.2.1
    [⟨["city"], [Val.text "A"]⟩, ⟨["city"], [Val.text "A"]⟩]
    ⟨["city"], [Val.text "A"]⟩ (by simp)

/-! ## Metadata exclusion lemmas (C10) -/

/-- A well-formed stored row keeps metadata objects only under the
reserved `__meta` key. -/
def wfRow (r : Row) : Prop :=
  ∀ p ∈ r, isMetaVal p.2 = true → p.1 = "__meta"

instance (r : Row) : Decidable (wfRow r) := by
  unfold wfRow
  infer_instance

theorem dictGet_not_meta (r : Row) (k : String) (hwf : wfRow r) (hk : k ≠ "__meta") :
    isMetaVal (dictGet r k) = false := by
  unfold dictGet dictGetD
  cases hf : r.find? (fun p => p.1 == k) with
  | none => rfl
  | some p =>
    have hpk0 := List.find?_some hf
    have hpk : p.1 = k := by simpa using hpk0
    have hmem : p ∈ r := List.mem_of_find?_eq_some hf
    cases hmv : isMetaVal p.2 with
    | false => rfl
    | true =>
      exact absurd (hpk.symm.trans (hwf p hmem hmv)) hk

theorem computeRowFunction_null (f : String) (v : Val)
    (h : computeRowFunction f = some v) : v = Val.null := by
  unfold computeRowFunction at h
  by_cases h1 : f = "writetime"
  · rw [if_pos h1] at h
    exact (Option.some.inj h).symm
  · rw [if_neg h1] at h
    by_cases h2 : f = "ttl"
    · rw [if_pos h2] at h
      exact (Option.some.inj h).symm
    · rw [if_neg h2] at h
      cases h

theorem projectRow_no_meta (r : Row) (compiled : List (Sum String String))
    (vs : List Val) (hwf : wfRow r)
    (hcols : ∀ c, Sum.inl c ∈ compiled → c ≠ "__meta")
    (h : projectRow r compiled = some vs) :
    ∀ v ∈ vs, isMetaVal v = false := by
  induction compiled generalizing vs with
  | nil =>
    unfold projectRow at h
    rw [← Option.some.inj h]
    intro v hv
    cases hv
  | cons e es ih =>
    unfold projectRow at h
    cases he : projectEntry r e with
    | none => rw [he] at h; cases h
    | some v0 =>
      rw [he] at h
      cases hrest : projectRow r es with
      | none => rw [hrest] at h; cases h
      | some vs0 =>
        rw [hrest] at h
        dsimp only at h
        rw [← Option.some.inj h]
        intro v hv
        rcases List.mem_cons.mp hv with heq | hmem
        · rw [heq]
          cases e with
          | inl c =>
            unfold projectEntry at he
            rw [← Option.some.inj he]
            exact dictGet_not_meta r c hwf (hcols c (by simp))
          | inr f =>
            unfold projectEntry at he
            rw [computeRowFunction_null f v0 he]
            rfl
        · exact ih vs0 (fun c hc => hcols c (by simp [hc])) hrest v hmem

theorem buildResultRows_no_meta (compiled : List (Sum String String))
    (names : List String) (data : List Row) (rs : List ResultRow)
    (hdata : ∀ r ∈ data, wfRow r)
    (hcols : ∀ c, Sum.inl c ∈ compiled → c ≠ "__meta")
    (h : buildResultRows compiled names data = some rs) :
    rs.length = data.length ∧
    ∀ row ∈ rs, row.names = names ∧ ∀ v ∈ row.values, isMetaVal v = false := by
  induction data generalizing rs with
  | nil =>
    unfold buildResultRows at h
    rw [← Option.some.inj h]
    exact ⟨rfl, fun row hrow => absurd hrow (by simp)⟩
  | cons r ds ih =>
    unfold buildResultRows at h
    cases hpr : projectRow r compiled with
    | none => rw [hpr] at h; cases h
    | some vs =>
      rw [hpr] at h
      cases hrest : buildResultRows compiled names ds with
      | none => rw [hrest] at h; cases h
      | some rest =>
        rw [hrest] at h
        dsimp only at h
        rw [← Option.some.inj h]
        obtain ⟨hlen, hall⟩ := ih rest (fun x hx => hdata x (by simp [hx])) hrest
        refine ⟨by simp [hlen], ?_⟩
        intro row hrow
        rcases List.mem_cons.mp hrow with heq | hmem
        · subst heq
          exact ⟨rfl, projectRow_no_meta r compiled vs (hdata r (by simp)) hcols hpr⟩
        · exact hall row hmem

/-- Only column and metadata-function items survive compilation, and a
compiled column name comes from some column item. -/
theorem compileItems_inl_mem (items : List SelectItem)
    (compiled : List (Sum String String)) (names : List String)
    (h : compileItems items = some (compiled, names)) :
    ∀ c, Sum.inl c ∈ compiled → ∃ al, SelectItem.column c al ∈ items := by
  induction items generalizing compiled names with
  | nil =>
    unfold compileItems at h
    simp only [Option.some.injEq, Prod.mk.injEq] at h
    obtain ⟨h1, _⟩ := h
    subst h1
    intro c hc
    cases hc
  | cons i is ih =>
    cases i with
    | wildcard => unfold compileItems at h; cases h
    | aggregate f a al d => unfold compileItems at h; cases h
    | column n al =>
      unfold compileItems at h
      cases hrec : compileItems is with
      | none => rw [hrec] at h; cases h
      | some p =>
        obtain ⟨cs, ns⟩ := p
        rw [hrec] at h
        dsimp only at h
        simp only [Option.some.injEq, Prod.mk.injEq] at h
        obtain ⟨h1, _⟩ := h
        subst h1
        intro c hc
        rcases List.mem_cons.mp hc with heq | hmem
        · have hcn : c = n := Sum.inl.inj heq
          subst hcn
          exact ⟨al, by simp⟩
        · obtain ⟨al2, hmem2⟩ := ih cs ns hrec c hmem
          exact ⟨al2, by simp [hmem2]⟩
    | rowFunc f a al =>
      unfold compileItems at h
      cases hrec : compileItems is with
      | none => rw [hrec] at h; cases h
      | some p =>
        obtain ⟨cs, ns⟩ := p
        rw [hrec] at h
        dsimp only at h
        simp only [Option.some.injEq, Prod.mk.injEq] at h
        obtain ⟨h1, _⟩ := h
        subst h1
        intro c hc
        rcases List.mem_cons.mp hc with heq | hmem
        · cases heq
        · obtain ⟨al2, hmem2⟩ := ih cs ns hrec c hmem
          exact ⟨al2, by simp [hmem2]⟩

/-- When the select items compile (so they are plain columns and
metadata functions, not a lone wildcard), `selectColumns` runs the
projection loop. -/
theorem selectColumns_named (data : List Row) (items : List SelectItem)
    (schema : List (String × String)) (compiled : List (Sum String String))
    (names : List String) (h : compileItems items = some (compiled, names)) :
    selectColumns data items schema = buildResultRows compiled names data := by
  have hred : selectColumns data items schema =
      (match compileItems items with
       | none => none
       | some (compiled, names) => buildResultRows compiled names data) := by
    cases items with
    | nil => rfl
    | cons i is =>
      cases i with
      | wildcard =>
        cases is with
        | nil => simp [compileItems] at h
        | cons j js => rfl
      | column n al => rfl
      | aggregate f a al d => rfl
      | rowFunc f a al => rfl
  rw [hred, h]

/-- C10: the hidden per-row `__meta` entry never reaches a SELECT
output.  A wildcard projection returns exactly the schema columns in
declared order, a compiled named projection returns one output row per
input row carrying exactly the compiled aliases, and in both cases —
provided the schema does not declare the reserved name and rows keep
metadata only under it — no output value is a metadata object. -/
theorem c10_meta_never_selected (schema : List (String × String)) (data : List Row)
    (hschema : "__meta" ∉ schemaKeys schema)
    (hdata : ∀ r ∈ data, wfRow r) :
    (selectColumns data [SelectItem.wildcard] schema =
        some (data.map (fun r =>
          ⟨schemaKeys schema, (schemaKeys schema).map (fun c => dictGet r c)⟩)) ∧
      ∀ r ∈ data, ∀ c ∈ schemaKeys schema, isMetaVal (dictGet r c) = false) ∧
    (∀ (items : List SelectItem) (compiled : List (Sum String String))
        (names : List String) (rs : List ResultRow),
      compileItems items = some (compiled, names) →
      (∀ name al, SelectItem.column name al ∈ items → name ∈ schemaKeys schema) →
      selectColumns data items schema = some rs →
      rs.length = data.length ∧
        ∀ row ∈ rs, row.names = names ∧ ∀ v ∈ row.values, isMetaVal v = false) := by
  constructor
  · refine ⟨rfl, ?_⟩
    intro r hr c hc
    exact dictGet_not_meta r c (hdata r hr) (fun hcm => hschema (hcm ▸ hc))
  · intro items compiled names rs hcompile hnames hsel
    rw [selectColumns_named data items schema compiled names hcompile] at hsel
    refine buildResultRows_no_meta compiled names data rs hdata ?_ hsel
    intro c hc hcm
    obtain ⟨al, hal⟩ := compileItems_inl_mem items compiled names hcompile c hc
    exact hschema (hcm ▸ hnames c al hal)

/-- C10 witness: the theorem applied to a concrete one-row table whose
stored row carries the reserved `__meta` entry; both the wildcard
projection and a named projection exclude it. -/
theorem c10_witness :
    selectColumns [[("id", Val.int 1), ("__meta", Val.metaV 10 none)]]
        [SelectItem.wildcard] [("id", "int")] =
      some [⟨["id"], [Val.int 1]⟩] ∧
    ∀ row ∈ [(⟨["id"], [Val.int 1]⟩ : ResultRow)],
      row.names = ["id"] ∧ ∀ v ∈ row.values, isMetaVal v = false := by
  have h := c10_meta_never_selected [("id", "int")]
    [[("id", Val.int 1), ("__meta", Val.metaV 10 none)]]
    (by decide) (by decide)
  constructor
  · exact h.1.1
  · have h2 := h.2 [SelectItem.column "id" "id"] [Sum.inl "id"] ["id"]
      [⟨["id"], [Val.int 1]⟩] rfl
      (by intro name al hmem; rcases List.mem_singleton.mp hmem with h3; cases h3; decide)
      (by decide)
    intro row hrow
    obtain ⟨_, hall⟩ := h2
    exact hall row (by simpa using hrow)

end Mockylla


namespace PyScylla

open Mockylla

/-- C8 counterexample: the claim states that every condition using one
of the operators `=, !=, <, <=, >, >=, IN` is parsed (not silently
dropped).  The comparison regex operator class `[<>=]+` cannot match
the `!` of `!=`, so the condition string `a != 5` produces NO parsed
condition at all — and a row with `a = 5` then passes the resulting
empty condition list. -/
theorem c8_counterexample :
    parseConditions [("a", "int")] ["a != 5"] = some [] ∧
    check_row_conditions [("a", Val.int 5)] [] = some true := by
  exact ⟨by decide, rfl⟩

/-- C8 (amended): the condition layer parses and evaluates `=`, `<`,
`<=`, `>`, `>=` and `IN` with their standard comparison and membership
meaning, but NOT `!=`: a `!=` condition does not match either condition
regex and is silently dropped by the parser (and the evaluator would
return false for the `!=` operator string anyway). -/
theorem c8_condition_operators :
    (parseConditions [("a", "int")] ["a = 5"] = some [⟨"a", "=", Val.int 5⟩] ∧
     parseConditions [("a", "int")] ["a < 5"] = some [⟨"a", "<", Val.int 5⟩] ∧
     parseConditions [("a", "int")] ["a <= 5"] = some [⟨"a", "<=", Val.int 5⟩] ∧
     parseConditions [("a", "int")] ["a > 5"] = some [⟨"a", ">", Val.int 5⟩] ∧
     parseConditions [("a", "int")] ["a >= 5"] = some [⟨"a", ">=", Val.int 5⟩] ∧
     parseConditions [("a", "int")] ["a IN (1, 2)"] =
       some [⟨"a", "IN", Val.vlist [Prim.int 1, Prim.int 2]⟩]) ∧
    (∀ x y : Int,
      checkCondition (Val.int x) "=" (Val.int y) = some (decide (x = y)) ∧
      checkCondition (Val.int x) "<" (Val.int y) = some (decide (x < y)) ∧
      checkCondition (Val.int x) "<=" (Val.int y) = some (decide (x ≤ y)) ∧
      checkCondition (Val.int x) ">" (Val.int y) = some (decide (y < x)) ∧
      checkCondition (Val.int x) ">=" (Val.int y) = some (decide (y ≤ x))) ∧
    (∀ (p : Prim) (vs : List Prim),
      checkCondition (Val.prim p) "IN" (Val.vlist vs) = some (vs.contains p)) ∧
    (parseConditions [("a", "int")] ["a != 5"] = some [] ∧
     ∀ v w : Val, checkCondition v "!=" w = some false) := by
  refine ⟨⟨by decide, by decide, by decide, by decide, by decide, by decide⟩,
    ?_, ?_, by decide, ?_⟩
  · intro x y
    refine ⟨?_, rfl, rfl, rfl, rfl⟩
    show some (Val.int x == Val.int y) = some (decide (x = y))
    by_cases h : x = y
    · subst h
      simp
    · simp [h, Val.int]
  · intro p vs
    rfl
  · intro v w
    rfl

end PyScylla